import Mathlib

/-!
Verification development for the gel-rust client library core.

This file gives a shallow embedding, in Lean 4, of the parts of the
repository that the specification's checked claims are about:

* the scalar codec layer (`gel-protocol/src/serialization/decode/raw_scalar.rs`),
* the scalar descriptor check (`check_scalar` in the same file),
* the TLS parameter derivation (`Config::to_tls` in `gel-dsn/src/gel/config.rs`),
* the connection target (`Target::try_set_tls` in `gel-stream/src/common/target.rs`),
* the cardinality enumeration (`gel-db-protocol/src/protocol.rs`),
* the database/branch selector (`DatabaseBranch` in `gel-dsn/src/gel/config.rs`).

Modelling conventions:

* Byte buffers (`&[u8]`, `Bytes`) are `List Nat`, most significant byte first
  where a multi-byte integer is read (network byte order).
* Machine integers are `Nat`/`Int`; two's-complement interpretation is made
  explicit through `toSigned`/`intBytes`.
* `f32`/`f64` values are represented by their IEEE-754 bit patterns (`Nat`);
  the Rust implementation reads and writes floats through
  `to_bits`/`from_bits` (`put_f32`/`get_f32` in the `bytes` crate), so this
  representation is exact and makes bit-pattern preservation visible.
* Fallible operations return `Except`.  An out-of-bounds read of the `bytes`
  crate (`get_u16` etc.), which would panic in Rust, is modelled by the
  distinguished error `DecodeError.outOfBounds`; similarly the `unwrap` in
  `Uuid::decode`.  Claim C9 proves these are unreachable.
-/

namespace GelModel

/-! ## Byte-level primitives -/

/-- Big-endian accumulation of a byte list into a natural number
(the reading direction of `get_u16`/`get_u32`/`get_u64`). -/
def beNatAux (acc : Nat) : List Nat → Nat
  | [] => acc
  | b :: rest => beNatAux (acc * 256 + b) rest

/-- Big-endian value of a byte list. -/
def beNat (bs : List Nat) : Nat := beNatAux 0 bs

/-- Big-endian encoding of `v` into exactly `n` bytes (the writing direction
of `put_u16`/`put_u32`/`put_u64`). -/
def beBytes : Nat → Nat → List Nat
  | 0, _ => []
  | n + 1, v => (v / 256 ^ n % 256) :: beBytes n v

/-- Two's-complement reading of an unsigned `bits`-wide value, as performed
by `get_i16`/`get_i32`/`get_i64`. -/
def toSigned (bits : Nat) (v : Nat) : Int :=
  if v < 2 ^ (bits - 1) then (v : Int) else (v : Int) - 2 ^ bits

/-- Two's-complement `n`-byte big-endian encoding of an integer, as performed
by `put_i16`/`put_i32`/`put_i64`. -/
def intBytes (n : Nat) (v : Int) : List Nat :=
  beBytes n ((v % (2 ^ (8 * n))).toNat)

theorem length_beBytes (n v : Nat) : (beBytes n v).length = n := by
  induction n generalizing v with
  | zero => rfl
  | succ n ih => simp [beBytes, ih]

theorem beNatAux_eq (bs : List Nat) (acc : Nat) :
    beNatAux acc bs = acc * 256 ^ bs.length + beNatAux 0 bs := by
  induction bs generalizing acc with
  | nil => simp [beNatAux]
  | cons b bs ih =>
    show beNatAux (acc * 256 + b) bs = acc * 256 ^ (b :: bs).length + beNatAux (0 * 256 + b) bs
    rw [ih (acc * 256 + b), ih (0 * 256 + b)]
    simp only [List.length_cons, pow_succ, Nat.zero_mul, Nat.zero_add]
    ring

theorem mod_mul_split (a b v : Nat) : v % (a * b) = a * (v / a % b) + v % a := by
  conv_lhs => rw [← Nat.div_add_mod (v % (a * b)) a]
  rw [Nat.mod_mul_right_div_self, Nat.mod_mul_right_mod]

theorem beNat_beBytes (n v : Nat) : beNat (beBytes n v) = v % 256 ^ n := by
  induction n with
  | zero => simp [beBytes, beNat, beNatAux, Nat.mod_one]
  | succ n ih =>
    show beNatAux 0 ((v / 256 ^ n % 256) :: beBytes n v) = v % 256 ^ (n + 1)
    rw [beNatAux, beNatAux_eq, length_beBytes]
    have : beNatAux 0 (beBytes n v) = v % 256 ^ n := ih
    rw [this, pow_succ, mod_mul_split (256 ^ n) 256 v]
    ring_nf

/-! ## Decode errors

The error kinds of `gel-protocol/src/errors.rs` used by the scalar codecs,
plus the modelling-only `outOfBounds` (a `bytes`-crate panic or failed
`unwrap`, proved unreachable by claim C9). -/

inductive DecodeError where
  | underflow
  | extraData
  | invalidUtf8
  | invalidJsonFormat
  | invalidBool (val : Nat)
  | badSign
  | nonZeroReservedBytes
  | invalidDate
  | outOfBounds
  deriving DecidableEq, Repr

/-- The `ensure_exact_size` from `raw_scalar.rs` (lines 27-36). -/
def ensure_exact_size (buf : List Nat) (expected_size : Nat) : Except DecodeError Unit :=
  if buf.length ≠ expected_size then
    if buf.length < expected_size then .error .underflow
    else .error .extraData
  else .ok ()

/-- A big-endian read of `n` bytes from the front of the buffer: models the
`bytes::Buf::get_*` family, which panics (here: `outOfBounds`) when fewer
than `n` bytes remain. -/
def getBE (n : Nat) (buf : List Nat) : Except DecodeError (Nat × List Nat) :=
  if n ≤ buf.length then .ok (beNat (buf.take n), buf.drop n)
  else .error .outOfBounds

theorem ensure_exact_size_ok {buf : List Nat} {n : Nat} (h : buf.length = n) :
    ensure_exact_size buf n = .ok () := by
  simp [ensure_exact_size, h]

theorem ensure_exact_size_ne_oob (buf : List Nat) (n : Nat) :
    ensure_exact_size buf n ≠ .error .outOfBounds := by
  unfold ensure_exact_size
  split <;> [skip; simp]
  split <;> simp

theorem getBE_ok {n : Nat} {buf : List Nat} (h : n ≤ buf.length) :
    getBE n buf = .ok (beNat (buf.take n), buf.drop n) := by
  simp [getBE, h]

theorem emod_toNat_lt (w : Nat) (v : Int) :
    (v % (2 ^ w)).toNat < 2 ^ w := by
  have h1 : (0 : Int) < 2 ^ w := by positivity
  have h2 : v % (2 ^ w) < 2 ^ w := Int.emod_lt_of_pos v h1
  have h3 : (0 : Int) ≤ v % (2 ^ w) := Int.emod_nonneg v (by positivity)
  have : ((2 ^ w : Nat) : Int) = (2 : Int) ^ w := by push_cast; ring
  omega

theorem toSigned_emod (w : Nat) (hw : 0 < w) (v : Int)
    (h1 : -(2 ^ (w - 1)) ≤ v) (h2 : v < 2 ^ (w - 1)) :
    toSigned w ((v % (2 ^ w)).toNat) = v := by
  have hsucc : w = (w - 1) + 1 := by omega
  have hM : (2 : Int) ^ w = 2 ^ (w - 1) * 2 := by
    conv_lhs => rw [hsucc]
    rw [pow_succ]
  have hMpos : (0 : Int) < 2 ^ w := by positivity
  have hHpos : (0 : Int) < 2 ^ (w - 1) := by positivity
  have hcastH : ((2 ^ (w - 1) : Nat) : Int) = (2 : Int) ^ (w - 1) := by push_cast; ring
  have hm : (((v % (2 ^ w)).toNat : Nat) : Int) = v % (2 ^ w) := by
    have := Int.emod_nonneg v (ne_of_gt hMpos)
    omega
  rcases le_or_lt 0 v with hv | hv
  · have hemod : v % (2 ^ w) = v := Int.emod_eq_of_lt hv (by omega)
    rw [hemod] at hm
    unfold toSigned
    split <;> omega
  · have hemod : v % (2 ^ w) = v + 2 ^ w := by
      have h5 : (v + 2 ^ w * 1) % (2 ^ w) = v % (2 ^ w) :=
        Int.add_mul_emod_self_left v (2 ^ w) 1
      have h6 : v + 2 ^ w * 1 = v + 2 ^ w := by ring
      rw [h6] at h5
      rw [← h5]
      exact Int.emod_eq_of_lt (by omega) (by omega)
    rw [hemod] at hm
    unfold toSigned
    split <;> omega

/-! ## UTF-8 validity

`str::from_utf8` of the Rust standard library.  A `String`/`&str` value is,
by the standard library's invariant, a byte sequence accepted by this
checker, and `from_utf8` returns exactly those bytes.  The checker below is
the RFC 3629 well-formedness condition (the same table `from_utf8`
implements). -/

/-- A UTF-8 continuation byte (`10xxxxxx`). -/
def contByte (b : Nat) : Bool := 0x80 ≤ b && b ≤ 0xBF

def validUtf8 : List Nat → Bool
  | [] => true
  | b :: rest =>
    if b ≤ 0x7F then validUtf8 rest
    else if 0xC2 ≤ b && b ≤ 0xDF then
      match rest with
      | c :: r => contByte c && validUtf8 r
      | [] => false
    else if b = 0xE0 then
      match rest with
      | c :: d :: r => (0xA0 ≤ c && c ≤ 0xBF) && contByte d && validUtf8 r
      | _ => false
    else if (0xE1 ≤ b && b ≤ 0xEC) || b = 0xEE || b = 0xEF then
      match rest with
      | c :: d :: r => contByte c && contByte d && validUtf8 r
      | _ => false
    else if b = 0xED then
      match rest with
      | c :: d :: r => (0x80 ≤ c && c ≤ 0x9F) && contByte d && validUtf8 r
      | _ => false
    else if b = 0xF0 then
      match rest with
      | c :: d :: e :: r => (0x90 ≤ c && c ≤ 0xBF) && contByte d && contByte e && validUtf8 r
      | _ => false
    else if 0xF1 ≤ b && b ≤ 0xF3 then
      match rest with
      | c :: d :: e :: r => contByte c && contByte d && contByte e && validUtf8 r
      | _ => false
    else if b = 0xF4 then
      match rest with
      | c :: d :: e :: r => (0x80 ≤ c && c ≤ 0x8F) && contByte d && contByte e && validUtf8 r
      | _ => false
    else false
  termination_by l => l.length
  decreasing_by all_goals (simp_wf <;> omega)

/-! ## Scalar value types

The model structures of `gel-protocol/src/model` that the `RawCodec`
implementations in `raw_scalar.rs` produce.  Integer fields keep the Rust
field types' two's-complement ranges through the well-formedness predicate
`wfScalar` below. -/

/-- The `model::Uuid` (16 raw bytes). -/
structure Uuid where
  bytes : List Nat
  deriving DecidableEq, Repr

/-- The `Uuid::from_slice`: succeeds exactly on 16-byte slices. -/
def uuidFromSlice (b : List Nat) : Option Uuid :=
  if b.length = 16 then some ⟨b⟩ else none

/-- The `model::Decimal { negative, weight: i16, decimal_digits: u16, digits: Vec<u16> }`. -/
structure Decimal where
  negative : Bool
  weight : Int
  decimal_digits : Nat
  digits : List Nat
  deriving DecidableEq, Repr

/-- The `model::BigInt { negative, weight: i16, digits: Vec<u16> }`. -/
structure BigInt where
  negative : Bool
  weight : Int
  digits : List Nat
  deriving DecidableEq, Repr

/-- The `model::Duration { micros: i64 }`. -/
structure Duration where
  micros : Int
  deriving DecidableEq, Repr

/-- The `model::RelativeDuration { micros: i64, days: i32, months: i32 }`. -/
structure RelativeDuration where
  micros : Int
  days : Int
  months : Int
  deriving DecidableEq, Repr

/-- The `model::DateDuration { days: i32, months: i32 }`. -/
structure DateDuration where
  days : Int
  months : Int
  deriving DecidableEq, Repr

/-- The `model::LocalDate { days: i32 }`. -/
structure LocalDate where
  days : Int
  deriving DecidableEq, Repr

/-- The `model::LocalTime { micros: u64 }` with the invariant below 86,400·10⁶. -/
structure LocalTime where
  micros : Nat
  deriving DecidableEq, Repr

/-- Modelled from the spec: `model::Datetime` (`model/time.rs` is not part of
the sources under review); per §4.3 a datetime is carried as `i64 micros`
from the Postgres epoch, so the model stores exactly that field. -/
structure Datetime where
  micros : Int
  deriving DecidableEq, Repr

/-- Modelled from the spec: `model::LocalDatetime`, `i64 micros` from the
Postgres epoch (§4.3). -/
structure LocalDatetime where
  micros : Int
  deriving DecidableEq, Repr

/-- The `model::ConfigMemory(i64)`. -/
structure ConfigMemory where
  bytes : Int
  deriving DecidableEq, Repr

/-! ## `RawCodec::decode` implementations (`raw_scalar.rs`) -/

/-- The `<&str as RawCodec>::decode` / `<String as RawCodec>::decode`
(lines 38-42, 98-103): UTF-8 validation, no length framing. -/
def strDecode (buf : List Nat) : Except DecodeError (List Nat) :=
  if validUtf8 buf then .ok buf else .error .invalidUtf8

/-- The `<Json as RawCodec>::decode` (lines 120-128): one format byte that must
be `1`, then UTF-8 text. -/
def jsonDecode (buf : List Nat) : Except DecodeError (List Nat) :=
  match buf with
  | [] => .error .underflow
  | format :: rest =>
    if format = 1 then
      if validUtf8 rest then .ok rest else .error .invalidUtf8
    else .error .invalidJsonFormat

/-- The `<Uuid as RawCodec>::decode` (lines 130-136).  The source calls
`Uuid::from_slice(buf).unwrap()`; the `none` case of `uuidFromSlice`
(a panic in Rust) is modelled as `outOfBounds`. -/
def uuidDecode (buf : List Nat) : Except DecodeError Uuid :=
  match ensure_exact_size buf 16 with
  | .error e => .error e
  | .ok _ =>
    match uuidFromSlice buf with
    | some uuid => .ok uuid
    | none => .error .outOfBounds

/-- The `<bool as RawCodec>::decode` (lines 152-162). -/
def boolDecode (buf : List Nat) : Except DecodeError Bool :=
  match ensure_exact_size buf 1 with
  | .error e => .error e
  | .ok _ =>
    match buf with
    | v :: _ =>
      if v = 0x00 then .ok false
      else if v = 0x01 then .ok true
      else .error (.invalidBool v)
    | [] => .error .outOfBounds

/-- The `<i16 as RawCodec>::decode` (lines 181-186). -/
def i16Decode (buf : List Nat) : Except DecodeError Int :=
  match ensure_exact_size buf 2 with
  | .error e => .error e
  | .ok _ =>
    match getBE 2 buf with
    | .error e => .error e
    | .ok (v, _) => .ok (toSigned 16 v)

/-- The `<i32 as RawCodec>::decode` (lines 202-207). -/
def i32Decode (buf : List Nat) : Except DecodeError Int :=
  match ensure_exact_size buf 4 with
  | .error e => .error e
  | .ok _ =>
    match getBE 4 buf with
    | .error e => .error e
    | .ok (v, _) => .ok (toSigned 32 v)

/-- The `<i64 as RawCodec>::decode` (lines 223-228). -/
def i64Decode (buf : List Nat) : Except DecodeError Int :=
  match ensure_exact_size buf 8 with
  | .error e => .error e
  | .ok _ =>
    match getBE 8 buf with
    | .error e => .error e
    | .ok (v, _) => .ok (toSigned 64 v)

/-- The `<ConfigMemory as RawCodec>::decode` (lines 230-235). -/
def configMemoryDecode (buf : List Nat) : Except DecodeError ConfigMemory :=
  match ensure_exact_size buf 8 with
  | .error e => .error e
  | .ok _ =>
    match getBE 8 buf with
    | .error e => .error e
    | .ok (v, _) => .ok ⟨toSigned 64 v⟩

/-- The `<f32 as RawCodec>::decode` (lines 251-256).  `get_f32` is
`f32::from_bits(get_u32)`, so the result is the read bit pattern. -/
def f32Decode (buf : List Nat) : Except DecodeError Nat :=
  match ensure_exact_size buf 4 with
  | .error e => .error e
  | .ok _ =>
    match getBE 4 buf with
    | .error e => .error e
    | .ok (bits, _) => .ok bits

/-- The `<f64 as RawCodec>::decode` (lines 272-277). -/
def f64Decode (buf : List Nat) : Except DecodeError Nat :=
  match ensure_exact_size buf 8 with
  | .error e => .error e
  | .ok _ =>
    match getBE 8 buf with
    | .error e => .error e
    | .ok (bits, _) => .ok bits

/-- The `<&[u8] as RawCodec>::decode` / `<Bytes as RawCodec>::decode`
(lines 293-297, 312-316). -/
def bytesDecode (buf : List Nat) : Except DecodeError (List Nat) := .ok buf

/-- The digit loop of `Decimal`/`BigInt` decode: `ndigits` consecutive
`get_u16` reads. -/
def readDigits : Nat → List Nat → Except DecodeError (List Nat × List Nat)
  | 0, buf => .ok ([], buf)
  | n + 1, buf =>
    match getBE 2 buf with
    | .error e => .error e
    | .ok (d, buf) =>
      match readDigits n buf with
      | .error e => .error e
      | .ok (ds, buf) => .ok (d :: ds, buf)

/-- The `<Decimal as RawCodec>::decode` (lines 345-368). -/
def decimalDecode (buf : List Nat) : Except DecodeError Decimal :=
  if buf.length < 8 then .error .underflow
  else
    match getBE 2 buf with
    | .error e => .error e
    | .ok (ndigits, buf) =>
      match getBE 2 buf with
      | .error e => .error e
      | .ok (weight, buf) =>
        match getBE 2 buf with
        | .error e => .error e
        | .ok (sign, buf) =>
          let negativeE : Except DecodeError Bool :=
            if sign = 0x0000 then .ok false
            else if sign = 0x4000 then .ok true
            else .error .badSign
          match negativeE with
          | .error e => .error e
          | .ok negative =>
            match getBE 2 buf with
            | .error e => .error e
            | .ok (decimal_digits, buf) =>
              match ensure_exact_size buf (ndigits * 2) with
              | .error e => .error e
              | .ok _ =>
                match readDigits ndigits buf with
                | .error e => .error e
                | .ok (digits, _) =>
                  .ok ⟨negative, toSigned 16 weight, decimal_digits, digits⟩

/-- The `<BigInt as RawCodec>::decode` (lines 418-441): like `Decimal` but the
`decimal_digits` field is reserved and must be zero. -/
def bigIntDecode (buf : List Nat) : Except DecodeError BigInt :=
  if buf.length < 8 then .error .underflow
  else
    match getBE 2 buf with
    | .error e => .error e
    | .ok (ndigits, buf) =>
      match getBE 2 buf with
      | .error e => .error e
      | .ok (weight, buf) =>
        match getBE 2 buf with
        | .error e => .error e
        | .ok (sign, buf) =>
          let negativeE : Except DecodeError Bool :=
            if sign = 0x0000 then .ok false
            else if sign = 0x4000 then .ok true
            else .error .badSign
          match negativeE with
          | .error e => .error e
          | .ok negative =>
            match getBE 2 buf with
            | .error e => .error e
            | .ok (decimal_digits, buf) =>
              if decimal_digits = 0 then
                match ensure_exact_size buf (ndigits * 2) with
                | .error e => .error e
                | .ok _ =>
                  match readDigits ndigits buf with
                  | .error e => .error e
                  | .ok (digits, _) =>
                    .ok ⟨negative, toSigned 16 weight, digits⟩
              else .error .nonZeroReservedBytes

/-- The `<Duration as RawCodec>::decode` (lines 474-483): 8-byte micros then two
reserved 4-byte fields that must be zero. -/
def durationDecode (buf : List Nat) : Except DecodeError Duration :=
  match ensure_exact_size buf 16 with
  | .error e => .error e
  | .ok _ =>
    match getBE 8 buf with
    | .error e => .error e
    | .ok (micros, buf) =>
      match getBE 4 buf with
      | .error e => .error e
      | .ok (days, buf) =>
        match getBE 4 buf with
        | .error e => .error e
        | .ok (months, _) =>
          if months = 0 ∧ days = 0 then .ok ⟨toSigned 64 micros⟩
          else .error .nonZeroReservedBytes

/-- The `<RelativeDuration as RawCodec>::decode` (lines 504-516). -/
def relativeDurationDecode (buf : List Nat) : Except DecodeError RelativeDuration :=
  match ensure_exact_size buf 16 with
  | .error e => .error e
  | .ok _ =>
    match getBE 8 buf with
    | .error e => .error e
    | .ok (micros, buf) =>
      match getBE 4 buf with
      | .error e => .error e
      | .ok (days, buf) =>
        match getBE 4 buf with
        | .error e => .error e
        | .ok (months, _) =>
          .ok ⟨toSigned 64 micros, toSigned 32 days, toSigned 32 months⟩

/-- The `<DateDuration as RawCodec>::decode` (lines 518-527): the micros field is
reserved and must be zero. -/
def dateDurationDecode (buf : List Nat) : Except DecodeError DateDuration :=
  match ensure_exact_size buf 16 with
  | .error e => .error e
  | .ok _ =>
    match getBE 8 buf with
    | .error e => .error e
    | .ok (micros, buf) =>
      match getBE 4 buf with
      | .error e => .error e
      | .ok (days, buf) =>
        match getBE 4 buf with
        | .error e => .error e
        | .ok (months, _) =>
          if toSigned 64 micros = 0 then .ok ⟨toSigned 32 days, toSigned 32 months⟩
          else .error .nonZeroReservedBytes

/-- The `<Datetime as RawCodec>::decode` (lines 566-571).  The range check of
`Datetime::from_postgres_micros` lives in `model/time.rs`, which is not among
the sources under review; modelled from the spec (§4.3: `i64 micros` from the
Postgres epoch), the conversion is the identity on the decoded micros. -/
def datetimeDecode (buf : List Nat) : Except DecodeError Datetime :=
  match i64Decode buf with
  | .error e => .error e
  | .ok micros => .ok ⟨micros⟩

/-- The `<LocalDatetime as RawCodec>::decode` (lines 585-590); see
`datetimeDecode` for the `from_postgres_micros` modelling. -/
def localDatetimeDecode (buf : List Nat) : Except DecodeError LocalDatetime :=
  match i64Decode buf with
  | .error e => .error e
  | .ok micros => .ok ⟨micros⟩

/-- The `<LocalDate as RawCodec>::decode` (lines 604-609). -/
def localDateDecode (buf : List Nat) : Except DecodeError LocalDate :=
  match i32Decode buf with
  | .error e => .error e
  | .ok days => .ok ⟨days⟩

/-- The `<LocalTime as RawCodec>::decode` (lines 623-634): micros must lie in
`[0, 86_400 * 1_000_000)`. -/
def localTimeDecode (buf : List Nat) : Except DecodeError LocalTime :=
  match i64Decode buf with
  | .error e => .error e
  | .ok micros =>
    if 0 ≤ micros ∧ micros < 86400 * 1000000 then .ok ⟨micros.toNat⟩
    else .error .invalidDate

/-! ## `ScalarArg::encode` implementations

Encoders whose body is in `raw_scalar.rs` are translated from it; the
`codec::encode_*` helpers it delegates to (`Decimal`, `BigInt`, the duration
and date/time family) live in `gel-protocol/src/codec.rs`, which is not among
the sources under review, and are modelled from the spec's wire table
(§4.3). -/

/-- The `<String as ScalarArg>::encode` (lines 67-71): the raw UTF-8 bytes. -/
def strEncode (s : List Nat) : List Nat := s

/-- The `<Json as ScalarArg>::encode` (lines 105-111): `0x01` then the bytes. -/
def jsonEncode (s : List Nat) : List Nat := 1 :: s

/-- The `<Uuid as ScalarArg>::encode` (lines 138-143): the 16 raw bytes. -/
def uuidEncode (u : Uuid) : List Nat := u.bytes

/-- The `<bool as ScalarArg>::encode` (lines 164-171). -/
def boolEncode (b : Bool) : List Nat :=
  match b with
  | false => [0x00]
  | true => [0x01]

/-- The `<i16 as ScalarArg>::encode` (lines 188-192): `put_i16`. -/
def i16Encode (v : Int) : List Nat := intBytes 2 v

/-- The `<i32 as ScalarArg>::encode` (lines 209-213): `put_i32`. -/
def i32Encode (v : Int) : List Nat := intBytes 4 v

/-- The `<i64 as ScalarArg>::encode` (lines 237-241): `put_i64`. -/
def i64Encode (v : Int) : List Nat := intBytes 8 v

/-- The `<f32 as ScalarArg>::encode` (lines 258-262): `put_f32` writes the bit
pattern big-endian. -/
def f32Encode (bits : Nat) : List Nat := beBytes 4 bits

/-- The `<f64 as ScalarArg>::encode` (lines 279-283). -/
def f64Encode (bits : Nat) : List Nat := beBytes 8 bits

/-- The `<&[u8] as ScalarArg>::encode` / `<Bytes as ScalarArg>::encode`
(lines 299-303, 318-321). -/
def bytesEncode (b : List Nat) : List Nat := b

/-- The `<ConfigMemory as ScalarArg>::encode` (lines 331-336): `put_i64(self.0)`. -/
def configMemoryEncode (m : ConfigMemory) : List Nat := intBytes 8 m.bytes

/-- The digit section of the decimal/big-int wire format: each base-10000
digit as a `u16`. -/
def encodeDigits : List Nat → List Nat
  | [] => []
  | d :: ds => beBytes 2 d ++ encodeDigits ds

/-- Modelled from the spec: `codec::encode_decimal` (not among the sources
under review); §4.3 decimal wire format
`u16 ndigits, i16 weight, u16 sign∈{0,0x4000}, u16 dscale, ndigits×u16`. -/
def decimalEncode (d : Decimal) : List Nat :=
  beBytes 2 d.digits.length ++ intBytes 2 d.weight ++
    beBytes 2 (if d.negative then 0x4000 else 0x0000) ++
    beBytes 2 d.decimal_digits ++ encodeDigits d.digits

/-- Modelled from the spec: `codec::encode_big_int` (not among the sources
under review); §4.3: as decimal but `dscale` is written as zero. -/
def bigIntEncode (b : BigInt) : List Nat :=
  beBytes 2 b.digits.length ++ intBytes 2 b.weight ++
    beBytes 2 (if b.negative then 0x4000 else 0x0000) ++
    beBytes 2 0 ++ encodeDigits b.digits

/-- Modelled from the spec: `codec::encode_duration` (not among the sources
under review); §4.3: `i64 micros, u32 days==0, u32 months==0`. -/
def durationEncode (d : Duration) : List Nat :=
  intBytes 8 d.micros ++ beBytes 4 0 ++ beBytes 4 0

/-- Modelled from the spec: `codec::encode_relative_duration` (not among the
sources under review); §4.3: `i64 micros, i32 days, i32 months`. -/
def relativeDurationEncode (d : RelativeDuration) : List Nat :=
  intBytes 8 d.micros ++ intBytes 4 d.days ++ intBytes 4 d.months

/-- Modelled from the spec: `codec::encode_date_duration` (not among the
sources under review); §4.3: `i64 micros==0, i32 days, i32 months`. -/
def dateDurationEncode (d : DateDuration) : List Nat :=
  intBytes 8 0 ++ intBytes 4 d.days ++ intBytes 4 d.months

/-- Modelled from the spec: `codec::encode_datetime` (not among the sources
under review); §4.3: `i64 micros` from the Postgres epoch. -/
def datetimeEncode (d : Datetime) : List Nat := intBytes 8 d.micros

/-- Modelled from the spec: `codec::encode_local_datetime` (not among the
sources under review); §4.3: `i64 micros` from the Postgres epoch. -/
def localDatetimeEncode (d : LocalDatetime) : List Nat := intBytes 8 d.micros

/-- Modelled from the spec: `codec::encode_local_date` (not among the sources
under review); §4.3: `i32 days` from the Postgres epoch. -/
def localDateEncode (d : LocalDate) : List Nat := intBytes 4 d.days

/-- Modelled from the spec: `codec::encode_local_time` (not among the sources
under review); §4.3: `i64 micros` in `[0, 86_400·10⁶)`. -/
def localTimeEncode (t : LocalTime) : List Nat := intBytes 8 (t.micros : Int)

/-! ## The scalar universe for the round-trip claim (C1)

One value of `ScalarValue` per scalar type of §4.3 that has both a
`ScalarArg::encode` and a `RawCodec::decode` implementation in
`raw_scalar.rs`.  `wfScalar` captures the Rust-side typing invariants
(integer field ranges, `String` UTF-8 validity, `Uuid` length,
`LocalTime`'s documented range). -/

inductive ScalarValue where
  | bool (b : Bool)
  | int16 (v : Int)
  | int32 (v : Int)
  | int64 (v : Int)
  | float32 (bits : Nat)
  | float64 (bits : Nat)
  | str (bytes : List Nat)
  | json (bytes : List Nat)
  | bytes (b : List Nat)
  | uuid (u : Uuid)
  | configMemory (m : ConfigMemory)
  | decimal (d : Decimal)
  | bigInt (b : BigInt)
  | duration (d : Duration)
  | relativeDuration (d : RelativeDuration)
  | dateDuration (d : DateDuration)
  | localDate (d : LocalDate)
  | localTime (t : LocalTime)
  | datetime (d : Datetime)
  | localDatetime (d : LocalDatetime)
  deriving DecidableEq, Repr

def inI16 (v : Int) : Bool := decide (-(2 ^ 15) ≤ v ∧ v < 2 ^ 15)
def inI32 (v : Int) : Bool := decide (-(2 ^ 31) ≤ v ∧ v < 2 ^ 31)
def inI64 (v : Int) : Bool := decide (-(2 ^ 63) ≤ v ∧ v < 2 ^ 63)
def inU16 (v : Nat) : Bool := decide (v < 2 ^ 16)

/-- The Rust typing invariants of each scalar value. -/
def wfScalar : ScalarValue → Bool
  | .bool _ => true
  | .int16 v => inI16 v
  | .int32 v => inI32 v
  | .int64 v => inI64 v
  | .float32 bits => decide (bits < 2 ^ 32)
  | .float64 bits => decide (bits < 2 ^ 64)
  | .str bytes => validUtf8 bytes
  | .json bytes => validUtf8 bytes
  | .bytes _ => true
  | .uuid u => decide (u.bytes.length = 16)
  | .configMemory m => inI64 m.bytes
  | .decimal d =>
    inU16 d.digits.length && inI16 d.weight && inU16 d.decimal_digits &&
      d.digits.all inU16
  | .bigInt b => inU16 b.digits.length && inI16 b.weight && b.digits.all inU16
  | .duration d => inI64 d.micros
  | .relativeDuration d => inI64 d.micros && inI32 d.days && inI32 d.months
  | .dateDuration d => inI32 d.days && inI32 d.months
  | .localDate d => inI32 d.days
  | .localTime t => decide (t.micros < 86400 * 1000000)
  | .datetime d => inI64 d.micros
  | .localDatetime d => inI64 d.micros

/-- The `ScalarArg::encode` dispatched over the scalar universe. -/
def encodeScalar : ScalarValue → List Nat
  | .bool b => boolEncode b
  | .int16 v => i16Encode v
  | .int32 v => i32Encode v
  | .int64 v => i64Encode v
  | .float32 bits => f32Encode bits
  | .float64 bits => f64Encode bits
  | .str s => strEncode s
  | .json s => jsonEncode s
  | .bytes b => bytesEncode b
  | .uuid u => uuidEncode u
  | .configMemory m => configMemoryEncode m
  | .decimal d => decimalEncode d
  | .bigInt b => bigIntEncode b
  | .duration d => durationEncode d
  | .relativeDuration d => relativeDurationEncode d
  | .dateDuration d => dateDurationEncode d
  | .localDate d => localDateEncode d
  | .localTime t => localTimeEncode t
  | .datetime d => datetimeEncode d
  | .localDatetime d => localDatetimeEncode d

/-- The scalar type tags, to select the `RawCodec::decode` implementation. -/
inductive ScalarType where
  | bool | int16 | int32 | int64 | float32 | float64 | str | json | bytes
  | uuid | configMemory | decimal | bigInt | duration | relativeDuration
  | dateDuration | localDate | localTime | datetime | localDatetime
  deriving DecidableEq, Repr

def typeOf : ScalarValue → ScalarType
  | .bool _ => .bool
  | .int16 _ => .int16
  | .int32 _ => .int32
  | .int64 _ => .int64
  | .float32 _ => .float32
  | .float64 _ => .float64
  | .str _ => .str
  | .json _ => .json
  | .bytes _ => .bytes
  | .uuid _ => .uuid
  | .configMemory _ => .configMemory
  | .decimal _ => .decimal
  | .bigInt _ => .bigInt
  | .duration _ => .duration
  | .relativeDuration _ => .relativeDuration
  | .dateDuration _ => .dateDuration
  | .localDate _ => .localDate
  | .localTime _ => .localTime
  | .datetime _ => .datetime
  | .localDatetime _ => .localDatetime

/-- The `RawCodec::decode` dispatched by scalar type tag. -/
def decodeScalar (t : ScalarType) (buf : List Nat) : Except DecodeError ScalarValue :=
  match t with
  | .bool => (boolDecode buf).map .bool
  | .int16 => (i16Decode buf).map .int16
  | .int32 => (i32Decode buf).map .int32
  | .int64 => (i64Decode buf).map .int64
  | .float32 => (f32Decode buf).map .float32
  | .float64 => (f64Decode buf).map .float64
  | .str => (strDecode buf).map .str
  | .json => (jsonDecode buf).map .json
  | .bytes => (bytesDecode buf).map .bytes
  | .uuid => (uuidDecode buf).map .uuid
  | .configMemory => (configMemoryDecode buf).map .configMemory
  | .decimal => (decimalDecode buf).map .decimal
  | .bigInt => (bigIntDecode buf).map .bigInt
  | .duration => (durationDecode buf).map .duration
  | .relativeDuration => (relativeDurationDecode buf).map .relativeDuration
  | .dateDuration => (dateDurationDecode buf).map .dateDuration
  | .localDate => (localDateDecode buf).map .localDate
  | .localTime => (localTimeDecode buf).map .localTime
  | .datetime => (datetimeDecode buf).map .datetime
  | .localDatetime => (localDatetimeDecode buf).map .localDatetime

/-! ## Round-trip lemmas -/

theorem length_intBytes (n : Nat) (v : Int) : (intBytes n v).length = n := by
  simp [intBytes, length_beBytes]

theorem beNat_intBytes (n : Nat) (v : Int) :
    beNat (intBytes n v) = (v % (2 ^ (8 * n))).toNat := by
  rw [intBytes, beNat_beBytes]
  apply Nat.mod_eq_of_lt
  have h256 : (256 : Nat) ^ n = 2 ^ (8 * n) := by
    rw [show (256 : Nat) = 2 ^ 8 from rfl, ← pow_mul]
  rw [h256]
  exact emod_toNat_lt (8 * n) v

theorem intBytes_roundtrip (n : Nat) (hn : 0 < n) (v : Int)
    (h1 : -(2 ^ (8 * n - 1)) ≤ v) (h2 : v < 2 ^ (8 * n - 1)) :
    toSigned (8 * n) (beNat (intBytes n v)) = v := by
  rw [beNat_intBytes n v]
  exact toSigned_emod (8 * n) (by omega) v h1 h2

theorem intBytes16 (v : Int) (h1 : -(2 ^ 15) ≤ v) (h2 : v < 2 ^ 15) :
    toSigned 16 (beNat (intBytes 2 v)) = v :=
  intBytes_roundtrip 2 (by norm_num) v h1 h2

theorem intBytes32 (v : Int) (h1 : -(2 ^ 31) ≤ v) (h2 : v < 2 ^ 31) :
    toSigned 32 (beNat (intBytes 4 v)) = v :=
  intBytes_roundtrip 4 (by norm_num) v h1 h2

theorem intBytes64 (v : Int) (h1 : -(2 ^ 63) ≤ v) (h2 : v < 2 ^ 63) :
    toSigned 64 (beNat (intBytes 8 v)) = v :=
  intBytes_roundtrip 8 (by norm_num) v h1 h2

theorem getBE_append {n : Nat} {l rest : List Nat} (h : l.length = n) :
    getBE n (l ++ rest) = .ok (beNat l, rest) := by
  subst h
  rw [getBE_ok (by simp)]
  rw [List.take_left, List.drop_left]

theorem getBE_exact {n : Nat} {l : List Nat} (h : l.length = n) :
    getBE n l = .ok (beNat l, l.drop n) := by
  rw [getBE_ok (by omega)]
  rw [← h, List.take_length]

theorem length_encodeDigits (ds : List Nat) :
    (encodeDigits ds).length = 2 * ds.length := by
  induction ds with
  | nil => rfl
  | cons d ds ih => simp [encodeDigits, length_beBytes, ih]; omega

theorem readDigits_encodeDigits (ds : List Nat) (h : ds.all inU16 = true) :
    readDigits ds.length (encodeDigits ds) = .ok (ds, []) := by
  induction ds with
  | nil => rfl
  | cons d ds ih =>
    simp only [List.all_cons, Bool.and_eq_true] at h
    have hd : d < 65536 := by
      have := of_decide_eq_true h.1
      simpa using this
    show readDigits (ds.length + 1) (beBytes 2 d ++ encodeDigits ds) = _
    rw [readDigits, getBE_append (length_beBytes 2 d)]
    have hbe : beNat (beBytes 2 d) = d := by
      rw [beNat_beBytes]
      exact Nat.mod_eq_of_lt (by norm_num [hd])
    rw [hbe]
    simp [ih h.2]

theorem bool_roundtrip (b : Bool) : boolDecode (boolEncode b) = .ok b := by
  cases b <;> rfl

theorem str_roundtrip (s : List Nat) (h : validUtf8 s = true) :
    strDecode (strEncode s) = .ok s := by
  simp [strDecode, strEncode, h]

theorem json_roundtrip (s : List Nat) (h : validUtf8 s = true) :
    jsonDecode (jsonEncode s) = .ok s := by
  simp [jsonDecode, jsonEncode, h]

theorem bytes_roundtrip (b : List Nat) : bytesDecode (bytesEncode b) = .ok b := rfl

theorem uuid_roundtrip (u : Uuid) (h : u.bytes.length = 16) :
    uuidDecode (uuidEncode u) = .ok u := by
  obtain ⟨bs⟩ := u
  simp only [uuidEncode] at *
  rw [uuidDecode, ensure_exact_size_ok h]
  simp [uuidFromSlice, h]

theorem i16_roundtrip (v : Int) (h1 : -(2 ^ 15) ≤ v) (h2 : v < 2 ^ 15) :
    i16Decode (i16Encode v) = .ok v := by
  have hl : (i16Encode v).length = 2 := length_intBytes 2 v
  rw [i16Decode, ensure_exact_size_ok hl, getBE_exact hl]
  exact congrArg Except.ok (intBytes16 v h1 h2)

theorem i32_roundtrip (v : Int) (h1 : -(2 ^ 31) ≤ v) (h2 : v < 2 ^ 31) :
    i32Decode (i32Encode v) = .ok v := by
  have hl : (i32Encode v).length = 4 := length_intBytes 4 v
  rw [i32Decode, ensure_exact_size_ok hl, getBE_exact hl]
  exact congrArg Except.ok (intBytes32 v h1 h2)

theorem i64_roundtrip (v : Int) (h1 : -(2 ^ 63) ≤ v) (h2 : v < 2 ^ 63) :
    i64Decode (i64Encode v) = .ok v := by
  have hl : (i64Encode v).length = 8 := length_intBytes 8 v
  rw [i64Decode, ensure_exact_size_ok hl, getBE_exact hl]
  exact congrArg Except.ok (intBytes64 v h1 h2)

theorem configMemory_roundtrip (m : ConfigMemory)
    (h1 : -(2 ^ 63) ≤ m.bytes) (h2 : m.bytes < 2 ^ 63) :
    configMemoryDecode (configMemoryEncode m) = .ok m := by
  obtain ⟨v⟩ := m
  have hl : (configMemoryEncode ⟨v⟩).length = 8 := length_intBytes 8 v
  rw [configMemoryDecode, ensure_exact_size_ok hl, getBE_exact hl]
  exact congrArg Except.ok (congrArg ConfigMemory.mk (intBytes64 v h1 h2))

theorem f32_roundtrip (bits : Nat) (h : bits < 2 ^ 32) :
    f32Decode (f32Encode bits) = .ok bits := by
  have hl : (f32Encode bits).length = 4 := length_beBytes 4 bits
  rw [f32Decode, ensure_exact_size_ok hl, getBE_exact hl]
  rw [f32Encode, beNat_beBytes]
  refine congrArg Except.ok (Nat.mod_eq_of_lt ?_)
  norm_num at h ⊢
  exact h

theorem f64_roundtrip (bits : Nat) (h : bits < 2 ^ 64) :
    f64Decode (f64Encode bits) = .ok bits := by
  have hl : (f64Encode bits).length = 8 := length_beBytes 8 bits
  rw [f64Decode, ensure_exact_size_ok hl, getBE_exact hl]
  rw [f64Encode, beNat_beBytes]
  refine congrArg Except.ok (Nat.mod_eq_of_lt ?_)
  norm_num at h ⊢
  exact h

theorem beNat_beBytes_zero (n : Nat) : beNat (beBytes n 0) = 0 := by
  rw [beNat_beBytes]
  simp

theorem duration_roundtrip (d : Duration)
    (h1 : -(2 ^ 63) ≤ d.micros) (h2 : d.micros < 2 ^ 63) :
    durationDecode (durationEncode d) = .ok d := by
  obtain ⟨m⟩ := d
  have hl : ensure_exact_size (intBytes 8 m ++ (beBytes 4 0 ++ beBytes 4 0)) 16 = .ok () :=
    ensure_exact_size_ok (by simp [length_intBytes, length_beBytes])
  have h8 : getBE 8 (intBytes 8 m ++ (beBytes 4 0 ++ beBytes 4 0)) =
      .ok (beNat (intBytes 8 m), beBytes 4 0 ++ beBytes 4 0) :=
    getBE_append (length_intBytes 8 m)
  have h4a : getBE 4 (beBytes 4 0 ++ beBytes 4 0) =
      .ok (beNat (beBytes 4 0), beBytes 4 0) := getBE_append (length_beBytes 4 0)
  have h4b : getBE 4 (beBytes 4 0) = .ok (beNat (beBytes 4 0), []) := by
    have h := getBE_exact (length_beBytes 4 0)
    simpa [List.drop_eq_nil_of_le, length_beBytes] using h
  simp only [durationDecode, durationEncode, List.append_assoc, hl, h8, h4a, h4b,
    beNat_beBytes_zero, intBytes64 m h1 h2]
  simp

theorem relativeDuration_roundtrip (d : RelativeDuration)
    (hm1 : -(2 ^ 63) ≤ d.micros) (hm2 : d.micros < 2 ^ 63)
    (hd1 : -(2 ^ 31) ≤ d.days) (hd2 : d.days < 2 ^ 31)
    (hmo1 : -(2 ^ 31) ≤ d.months) (hmo2 : d.months < 2 ^ 31) :
    relativeDurationDecode (relativeDurationEncode d) = .ok d := by
  obtain ⟨m, dd, mo⟩ := d
  have hl : ensure_exact_size (intBytes 8 m ++ (intBytes 4 dd ++ intBytes 4 mo)) 16 = .ok () :=
    ensure_exact_size_ok (by simp [length_intBytes])
  have h8 : getBE 8 (intBytes 8 m ++ (intBytes 4 dd ++ intBytes 4 mo)) =
      .ok (beNat (intBytes 8 m), intBytes 4 dd ++ intBytes 4 mo) :=
    getBE_append (length_intBytes 8 m)
  have h4a : getBE 4 (intBytes 4 dd ++ intBytes 4 mo) =
      .ok (beNat (intBytes 4 dd), intBytes 4 mo) := getBE_append (length_intBytes 4 dd)
  have h4b : getBE 4 (intBytes 4 mo) = .ok (beNat (intBytes 4 mo), []) := by
    have h := getBE_exact (length_intBytes 4 mo)
    simpa [List.drop_eq_nil_of_le, length_intBytes] using h
  simp only [relativeDurationDecode, relativeDurationEncode, List.append_assoc, hl, h8,
    h4a, h4b, intBytes64 m hm1 hm2, intBytes32 dd hd1 hd2, intBytes32 mo hmo1 hmo2]

theorem dateDuration_roundtrip (d : DateDuration)
    (hd1 : -(2 ^ 31) ≤ d.days) (hd2 : d.days < 2 ^ 31)
    (hmo1 : -(2 ^ 31) ≤ d.months) (hmo2 : d.months < 2 ^ 31) :
    dateDurationDecode (dateDurationEncode d) = .ok d := by
  obtain ⟨dd, mo⟩ := d
  have hl : ensure_exact_size (intBytes 8 0 ++ (intBytes 4 dd ++ intBytes 4 mo)) 16 = .ok () :=
    ensure_exact_size_ok (by simp [length_intBytes])
  have h8 : getBE 8 (intBytes 8 0 ++ (intBytes 4 dd ++ intBytes 4 mo)) =
      .ok (beNat (intBytes 8 0), intBytes 4 dd ++ intBytes 4 mo) :=
    getBE_append (length_intBytes 8 0)
  have h4a : getBE 4 (intBytes 4 dd ++ intBytes 4 mo) =
      .ok (beNat (intBytes 4 dd), intBytes 4 mo) := getBE_append (length_intBytes 4 dd)
  have h4b : getBE 4 (intBytes 4 mo) = .ok (beNat (intBytes 4 mo), []) := by
    have h := getBE_exact (length_intBytes 4 mo)
    simpa [List.drop_eq_nil_of_le, length_intBytes] using h
  have hz : toSigned 64 (beNat (intBytes 8 0)) = 0 := intBytes64 0 (by norm_num) (by norm_num)
  simp only [dateDurationDecode, dateDurationEncode, List.append_assoc, hl, h8, h4a, h4b,
    hz, intBytes32 dd hd1 hd2, intBytes32 mo hmo1 hmo2]
  simp

theorem localDate_roundtrip (d : LocalDate)
    (h1 : -(2 ^ 31) ≤ d.days) (h2 : d.days < 2 ^ 31) :
    localDateDecode (localDateEncode d) = .ok d := by
  obtain ⟨dd⟩ := d
  have h : i32Decode (intBytes 4 dd) = .ok dd := i32_roundtrip dd h1 h2
  simp only [localDateDecode, localDateEncode, h]

theorem localTime_roundtrip (t : LocalTime) (h : t.micros < 86400 * 1000000) :
    localTimeDecode (localTimeEncode t) = .ok t := by
  obtain ⟨m⟩ := t
  replace h : m < 86400 * 1000000 := h
  have h64 : i64Decode (intBytes 8 (m : Int)) = .ok (m : Int) :=
    i64_roundtrip (m : Int) (by norm_num; omega) (by norm_num; omega)
  simp only [localTimeEncode]
  simp only [localTimeDecode, h64]
  have hcond : (0 : Int) ≤ (m : Int) ∧ (m : Int) < 86400 * 1000000 := by
    constructor
    · exact Int.natCast_nonneg m
    · push_cast
      omega
  simp only [hcond, and_self, if_true]
  simp

theorem datetime_roundtrip (d : Datetime)
    (h1 : -(2 ^ 63) ≤ d.micros) (h2 : d.micros < 2 ^ 63) :
    datetimeDecode (datetimeEncode d) = .ok d := by
  obtain ⟨m⟩ := d
  have h : i64Decode (intBytes 8 m) = .ok m := i64_roundtrip m h1 h2
  simp only [datetimeDecode, datetimeEncode, h]

theorem localDatetime_roundtrip (d : LocalDatetime)
    (h1 : -(2 ^ 63) ≤ d.micros) (h2 : d.micros < 2 ^ 63) :
    localDatetimeDecode (localDatetimeEncode d) = .ok d := by
  obtain ⟨m⟩ := d
  have h : i64Decode (intBytes 8 m) = .ok m := i64_roundtrip m h1 h2
  simp only [localDatetimeDecode, localDatetimeEncode, h]

theorem beNat_beBytes_of_lt {n v : Nat} (h : v < 256 ^ n) : beNat (beBytes n v) = v := by
  rw [beNat_beBytes]
  exact Nat.mod_eq_of_lt h

theorem decimal_roundtrip (d : Decimal)
    (hlen : d.digits.length < 2 ^ 16)
    (hw1 : -(2 ^ 15) ≤ d.weight) (hw2 : d.weight < 2 ^ 15)
    (hdd : d.decimal_digits < 2 ^ 16)
    (hds : d.digits.all inU16 = true) :
    decimalDecode (decimalEncode d) = .ok d := by
  obtain ⟨neg, w, dd, ds⟩ := d
  simp only at hlen hw1 hw2 hdd hds
  have hnd : beNat (beBytes 2 ds.length) = ds.length :=
    beNat_beBytes_of_lt (by norm_num at hlen ⊢; exact hlen)
  have hddv : beNat (beBytes 2 dd) = dd :=
    beNat_beBytes_of_lt (by norm_num at hdd ⊢; exact hdd)
  have hsign : ∀ s : Nat, s < 65536 → beNat (beBytes 2 s) = s := fun s hs =>
    beNat_beBytes_of_lt (by norm_num; exact hs)
  have hlenenc : ¬ (decimalEncode ⟨neg, w, dd, ds⟩).length < 8 := by
    simp [decimalEncode, length_beBytes, length_intBytes, length_encodeDigits]
    omega
  have g1 : getBE 2 (decimalEncode ⟨neg, w, dd, ds⟩) =
      .ok (beNat (beBytes 2 ds.length),
        intBytes 2 w ++ (beBytes 2 (if neg then 0x4000 else 0x0000) ++
          (beBytes 2 dd ++ encodeDigits ds))) := by
    simp only [decimalEncode, List.append_assoc]
    exact getBE_append (length_beBytes 2 ds.length)
  have g2 : getBE 2 (intBytes 2 w ++ (beBytes 2 (if neg then 0x4000 else 0x0000) ++
      (beBytes 2 dd ++ encodeDigits ds))) =
      .ok (beNat (intBytes 2 w), beBytes 2 (if neg then 0x4000 else 0x0000) ++
        (beBytes 2 dd ++ encodeDigits ds)) :=
    getBE_append (length_intBytes 2 w)
  have g3 : getBE 2 (beBytes 2 (if neg then 0x4000 else 0x0000) ++
      (beBytes 2 dd ++ encodeDigits ds)) =
      .ok (beNat (beBytes 2 (if neg then 0x4000 else 0x0000)),
        beBytes 2 dd ++ encodeDigits ds) :=
    getBE_append (length_beBytes 2 _)
  have g4 : getBE 2 (beBytes 2 dd ++ encodeDigits ds) =
      .ok (beNat (beBytes 2 dd), encodeDigits ds) :=
    getBE_append (length_beBytes 2 dd)
  have hsz : ensure_exact_size (encodeDigits ds) (beNat (beBytes 2 ds.length) * 2) = .ok () := by
    rw [hnd]
    exact ensure_exact_size_ok (by rw [length_encodeDigits]; ring)
  have hrd : readDigits (beNat (beBytes 2 ds.length)) (encodeDigits ds) = .ok (ds, []) := by
    rw [hnd]
    exact readDigits_encodeDigits ds hds
  have hnegE : (if beNat (beBytes 2 (if neg then 0x4000 else 0x0000)) = 0x0000 then
      (Except.ok false : Except DecodeError Bool)
      else if beNat (beBytes 2 (if neg then 0x4000 else 0x0000)) = 0x4000 then .ok true
      else .error .badSign) = .ok neg := by
    cases neg
    · simp [beNat_beBytes_zero]
    · have hv := hsign 0x4000 (by norm_num)
      simp [hv]
  simp only [decimalDecode, hlenenc, if_false, g1, g2, g3, g4, hnegE, hsz, hrd, hddv,
    intBytes16 w hw1 hw2]

theorem bigInt_roundtrip (b : BigInt)
    (hlen : b.digits.length < 2 ^ 16)
    (hw1 : -(2 ^ 15) ≤ b.weight) (hw2 : b.weight < 2 ^ 15)
    (hds : b.digits.all inU16 = true) :
    bigIntDecode (bigIntEncode b) = .ok b := by
  obtain ⟨neg, w, ds⟩ := b
  simp only at hlen hw1 hw2 hds
  have hnd : beNat (beBytes 2 ds.length) = ds.length :=
    beNat_beBytes_of_lt (by norm_num at hlen ⊢; exact hlen)
  have hz : beNat (beBytes 2 0) = 0 := beNat_beBytes_zero 2
  have hsign : ∀ s : Nat, s < 65536 → beNat (beBytes 2 s) = s := fun s hs =>
    beNat_beBytes_of_lt (by norm_num; exact hs)
  have hlenenc : ¬ (bigIntEncode ⟨neg, w, ds⟩).length < 8 := by
    simp [bigIntEncode, length_beBytes, length_intBytes, length_encodeDigits]
    omega
  have g1 : getBE 2 (bigIntEncode ⟨neg, w, ds⟩) =
      .ok (beNat (beBytes 2 ds.length),
        intBytes 2 w ++ (beBytes 2 (if neg then 0x4000 else 0x0000) ++
          (beBytes 2 0 ++ encodeDigits ds))) := by
    simp only [bigIntEncode, List.append_assoc]
    exact getBE_append (length_beBytes 2 ds.length)
  have g2 : getBE 2 (intBytes 2 w ++ (beBytes 2 (if neg then 0x4000 else 0x0000) ++
      (beBytes 2 0 ++ encodeDigits ds))) =
      .ok (beNat (intBytes 2 w), beBytes 2 (if neg then 0x4000 else 0x0000) ++
        (beBytes 2 0 ++ encodeDigits ds)) :=
    getBE_append (length_intBytes 2 w)
  have g3 : getBE 2 (beBytes 2 (if neg then 0x4000 else 0x0000) ++
      (beBytes 2 0 ++ encodeDigits ds)) =
      .ok (beNat (beBytes 2 (if neg then 0x4000 else 0x0000)),
        beBytes 2 0 ++ encodeDigits ds) :=
    getBE_append (length_beBytes 2 _)
  have g4 : getBE 2 (beBytes 2 0 ++ encodeDigits ds) =
      .ok (beNat (beBytes 2 0), encodeDigits ds) :=
    getBE_append (length_beBytes 2 0)
  have hsz : ensure_exact_size (encodeDigits ds) (beNat (beBytes 2 ds.length) * 2) = .ok () := by
    rw [hnd]
    exact ensure_exact_size_ok (by rw [length_encodeDigits]; ring)
  have hrd : readDigits (beNat (beBytes 2 ds.length)) (encodeDigits ds) = .ok (ds, []) := by
    rw [hnd]
    exact readDigits_encodeDigits ds hds
  have hnegE : (if beNat (beBytes 2 (if neg then 0x4000 else 0x0000)) = 0x0000 then
      (Except.ok false : Except DecodeError Bool)
      else if beNat (beBytes 2 (if neg then 0x4000 else 0x0000)) = 0x4000 then .ok true
      else .error .badSign) = .ok neg := by
    cases neg
    · simp [beNat_beBytes_zero]
    · have hv := hsign 0x4000 (by norm_num)
      simp [hv]
  simp only [bigIntDecode, hlenenc, if_false, g1, g2, g3, g4, hnegE, hz, hsz, hrd,
    intBytes16 w hw1 hw2]
  simp

theorem inI16_iff {v : Int} : inI16 v = true ↔ -(2 ^ 15) ≤ v ∧ v < 2 ^ 15 := by
  simp [inI16]

theorem inI32_iff {v : Int} : inI32 v = true ↔ -(2 ^ 31) ≤ v ∧ v < 2 ^ 31 := by
  simp [inI32]

theorem inI64_iff {v : Int} : inI64 v = true ↔ -(2 ^ 63) ≤ v ∧ v < 2 ^ 63 := by
  simp [inI64]

theorem inU16_iff {v : Nat} : inU16 v = true ↔ v < 2 ^ 16 := by
  simp [inU16]

/-- Claim C1: For every scalar type `T` of the codec layer and every
well-formed value `v : T`, decoding (the `RawCodec::decode` implementation
for `T`) the bytes produced by encoding `v` (the `ScalarArg::encode`
implementation) yields `v` exactly; in particular `f32`/`f64` values are
carried as their IEEE-754 bit patterns, so the decoded bit pattern equals
the encoded one (no NaN canonicalization). -/
theorem c1_scalar_roundtrip (v : ScalarValue) (h : wfScalar v = true) :
    decodeScalar (typeOf v) (encodeScalar v) = .ok v := by
  cases v with
  | bool b =>
    simp [decodeScalar, typeOf, encodeScalar, Except.map, bool_roundtrip b]
  | int16 v =>
    obtain ⟨h1, h2⟩ := inI16_iff.mp (by simpa [wfScalar] using h)
    simp [decodeScalar, typeOf, encodeScalar, Except.map, i16_roundtrip v h1 h2]
  | int32 v =>
    obtain ⟨h1, h2⟩ := inI32_iff.mp (by simpa [wfScalar] using h)
    simp [decodeScalar, typeOf, encodeScalar, Except.map, i32_roundtrip v h1 h2]
  | int64 v =>
    obtain ⟨h1, h2⟩ := inI64_iff.mp (by simpa [wfScalar] using h)
    simp [decodeScalar, typeOf, encodeScalar, Except.map, i64_roundtrip v h1 h2]
  | float32 bits =>
    have hb : bits < 2 ^ 32 := by simpa [wfScalar] using h
    simp [decodeScalar, typeOf, encodeScalar, Except.map, f32_roundtrip bits hb]
  | float64 bits =>
    have hb : bits < 2 ^ 64 := by simpa [wfScalar] using h
    simp [decodeScalar, typeOf, encodeScalar, Except.map, f64_roundtrip bits hb]
  | str s =>
    have hs : validUtf8 s = true := by simpa [wfScalar] using h
    simp [decodeScalar, typeOf, encodeScalar, Except.map, str_roundtrip s hs]
  | json s =>
    have hs : validUtf8 s = true := by simpa [wfScalar] using h
    simp [decodeScalar, typeOf, encodeScalar, Except.map, json_roundtrip s hs]
  | bytes b =>
    simp [decodeScalar, typeOf, encodeScalar, Except.map, bytes_roundtrip b]
  | uuid u =>
    have hu : u.bytes.length = 16 := by simpa [wfScalar] using h
    simp [decodeScalar, typeOf, encodeScalar, Except.map, uuid_roundtrip u hu]
  | configMemory m =>
    obtain ⟨h1, h2⟩ := inI64_iff.mp (by simpa [wfScalar] using h)
    simp [decodeScalar, typeOf, encodeScalar, Except.map, configMemory_roundtrip m h1 h2]
  | decimal d =>
    simp only [wfScalar, Bool.and_eq_true] at h
    obtain ⟨⟨⟨hlen, hw⟩, hdd⟩, hds⟩ := h
    obtain ⟨hw1, hw2⟩ := inI16_iff.mp hw
    simp [decodeScalar, typeOf, encodeScalar, Except.map,
      decimal_roundtrip d (inU16_iff.mp hlen) hw1 hw2 (inU16_iff.mp hdd) hds]
  | bigInt b =>
    simp only [wfScalar, Bool.and_eq_true] at h
    obtain ⟨⟨hlen, hw⟩, hds⟩ := h
    obtain ⟨hw1, hw2⟩ := inI16_iff.mp hw
    simp [decodeScalar, typeOf, encodeScalar, Except.map,
      bigInt_roundtrip b (inU16_iff.mp hlen) hw1 hw2 hds]
  | duration d =>
    obtain ⟨h1, h2⟩ := inI64_iff.mp (by simpa [wfScalar] using h)
    simp [decodeScalar, typeOf, encodeScalar, Except.map, duration_roundtrip d h1 h2]
  | relativeDuration d =>
    simp only [wfScalar, Bool.and_eq_true] at h
    obtain ⟨⟨hm, hd⟩, hmo⟩ := h
    obtain ⟨hm1, hm2⟩ := inI64_iff.mp hm
    obtain ⟨hd1, hd2⟩ := inI32_iff.mp hd
    obtain ⟨hmo1, hmo2⟩ := inI32_iff.mp hmo
    simp [decodeScalar, typeOf, encodeScalar, Except.map,
      relativeDuration_roundtrip d hm1 hm2 hd1 hd2 hmo1 hmo2]
  | dateDuration d =>
    simp only [wfScalar, Bool.and_eq_true] at h
    obtain ⟨hd, hmo⟩ := h
    obtain ⟨hd1, hd2⟩ := inI32_iff.mp hd
    obtain ⟨hmo1, hmo2⟩ := inI32_iff.mp hmo
    simp [decodeScalar, typeOf, encodeScalar, Except.map, dateDuration_roundtrip d hd1 hd2 hmo1 hmo2]
  | localDate d =>
    obtain ⟨h1, h2⟩ := inI32_iff.mp (by simpa [wfScalar] using h)
    simp [decodeScalar, typeOf, encodeScalar, Except.map, localDate_roundtrip d h1 h2]
  | localTime t =>
    have ht : t.micros < 86400 * 1000000 := by simpa [wfScalar] using h
    simp [decodeScalar, typeOf, encodeScalar, Except.map, localTime_roundtrip t ht]
  | datetime d =>
    obtain ⟨h1, h2⟩ := inI64_iff.mp (by simpa [wfScalar] using h)
    simp [decodeScalar, typeOf, encodeScalar, Except.map, datetime_roundtrip d h1 h2]
  | localDatetime d =>
    obtain ⟨h1, h2⟩ := inI64_iff.mp (by simpa [wfScalar] using h)
    simp [decodeScalar, typeOf, encodeScalar, Except.map, localDatetime_roundtrip d h1 h2]

/-- Witness for C1: the round trip evaluated at the concrete decimal value
`-1.23 · 10⁴` (`negative, weight 0, dscale 2, digits [1, 2300]`). -/
theorem c1_scalar_roundtrip_witness :
    wfScalar (.decimal ⟨true, 0, 2, [1, 2300]⟩) = true ∧
      decodeScalar (typeOf (.decimal ⟨true, 0, 2, [1, 2300]⟩))
        (encodeScalar (.decimal ⟨true, 0, 2, [1, 2300]⟩)) =
        .ok (.decimal ⟨true, 0, 2, [1, 2300]⟩) :=
  ⟨by decide, c1_scalar_roundtrip (.decimal ⟨true, 0, 2, [1, 2300]⟩) (by decide)⟩

/-! ## Descriptors and the scalar descriptor check

`check_scalar` (`raw_scalar.rs` lines 44-65) and the `check_descriptor`
implementations for `&str` (lines 80-96) and `EnumValue` (lines 660-679).

The `Descriptor` enum and `DescriptorContext` live in
`gel-protocol/src/descriptors.rs` / `query_arg.rs`, which are not among the
sources under review; they are modelled from the spec (§3): a descriptor
block is a dense positional arena of tagged descriptors, `ctx.get` resolves
a `TypePos`, `ctx.proto` carries the negotiated protocol version (only its
"major ≥ 2" bit is consulted), and `ctx.wrong_type` produces the
descriptor-mismatch error. -/

abbrev TypePos := Nat

/-- Modelled from the spec (§3, "Type descriptor"): the variants consulted by
the scalar checks; all remaining variants (tuple, array, object, ...) are
collapsed into `other`, which every check treats as a mismatch. -/
inductive Descriptor where
  | baseScalar (id : Uuid)
  | scalar (id : Uuid) (base_type_pos : Option TypePos)
  | enumeration (members : List (List Nat))
  | range (type_pos : TypePos)
  | other
  deriving DecidableEq, Repr

/-- Errors surfaced by the descriptor checks: an unresolvable `TypePos`
(from `ctx.get`) or the `DescriptorMismatch` produced by `ctx.wrong_type`. -/
inductive CheckError where
  | unresolvedTypePos (pos : TypePos)
  | descriptorMismatch
  deriving DecidableEq, Repr

/-- Modelled from the spec (§3, §9 "Descriptor graphs"): the descriptor
block as an indexed arena plus the protocol-version flag `proto.is_2()`. -/
structure DescriptorContext where
  descriptors : List Descriptor
  protoIs2 : Bool
  deriving Repr

/-- The `ctx.get(type_pos)`: resolve a position in the descriptor block. -/
def DescriptorContext.get (ctx : DescriptorContext) (pos : TypePos) :
    Except CheckError Descriptor :=
  match ctx.descriptors[pos]? with
  | some desc => .ok desc
  | none => .error (.unresolvedTypePos pos)

/-- The `check_scalar` (`raw_scalar.rs` lines 44-65), translated arm by arm.
The Rust recursion carries no structural measure (descriptor blocks are
topologically ordered by the server, §9), so the model takes explicit fuel;
both this function and the spec-side algorithm below treat exhausted fuel
identically, and the equivalence theorem quantifies over all fuel values. -/
def check_scalar (ctx : DescriptorContext) : Nat → TypePos → Uuid →
    Except CheckError Unit
  | 0, _, _ => .error .descriptorMismatch
  | fuel + 1, type_pos, type_id =>
    match ctx.get type_pos with
    | .error e => .error e
    | .ok desc =>
      match desc with
      | .scalar _ (some base) => check_scalar ctx fuel base type_id
      | .scalar id none =>
        if ctx.protoIs2 = true ∧ id = type_id then .ok ()
        else .error .descriptorMismatch
      | .baseScalar id =>
        if id = type_id then .ok () else .error .descriptorMismatch
      | _ => .error .descriptorMismatch

/-- The base position of a `Scalar` descriptor, when it has one (spec step 2). -/
def scalarBasePos : Descriptor → Option TypePos
  | .scalar _ (some base) => some base
  | _ => none

/-- The `id` of a `Scalar` descriptor (spec step 3). -/
def scalarId : Descriptor → Option Uuid
  | .scalar id _ => some id
  | _ => none

/-- The `id` of a `BaseScalar` descriptor (spec step 4). -/
def baseScalarId : Descriptor → Option Uuid
  | .baseScalar id => some id
  | _ => none

/-- The spec's descriptor-check algorithm (§4.3, steps 1-5), written from the
spec's words: resolve the descriptor at the position; if it is a `Scalar`
with a `base_type_pos`, recurse on the base; if the protocol version is ≥ 2
and the `Scalar`'s id equals the expected UUID, accept; else if it is a
`BaseScalar` whose id equals the expected UUID, accept; in every other case
fail with a descriptor mismatch. -/
def check_scalar_spec (ctx : DescriptorContext) : Nat → TypePos → Uuid →
    Except CheckError Unit
  | 0, _, _ => .error .descriptorMismatch
  | fuel + 1, pos, expected =>
    match ctx.get pos with
    | .error e => .error e
    | .ok desc =>
      match scalarBasePos desc with
      | some base => check_scalar_spec ctx fuel base expected
      | none =>
        if ctx.protoIs2 = true ∧ scalarId desc = some expected then .ok ()
        else if baseScalarId desc = some expected then .ok ()
        else .error .descriptorMismatch

/-- Claim C2: The scalar descriptor check of the implementation follows exactly
the spec's five-step algorithm: for every descriptor context, fuel bound,
type position, and expected type UUID, `check_scalar` and the spec-side
algorithm agree. -/
theorem c2_check_scalar_follows_spec (ctx : DescriptorContext) (fuel : Nat)
    (pos : TypePos) (expected : Uuid) :
    check_scalar ctx fuel pos expected = check_scalar_spec ctx fuel pos expected := by
  induction fuel generalizing pos with
  | zero => rfl
  | succ fuel ih =>
    rw [check_scalar, check_scalar_spec]
    cases hget : ctx.get pos with
    | error e => rfl
    | ok desc =>
      cases desc with
      | baseScalar id =>
        simp only [scalarBasePos, scalarId, baseScalarId]
        by_cases hid : id = expected <;> simp [hid]
      | scalar id bp =>
        cases bp with
        | some base =>
          simp only [scalarBasePos]
          exact ih base
        | none =>
          simp only [scalarBasePos, scalarId, baseScalarId]
          by_cases hp : ctx.protoIs2 = true ∧ id = expected <;> simp [hp]
      | enumeration members => simp [scalarBasePos, scalarId, baseScalarId]
      | range p => simp [scalarBasePos, scalarId, baseScalarId]
      | other => simp [scalarBasePos, scalarId, baseScalarId]

/-- The `String::uuid()`, the `std::str` type id
`00000000-0000-0000-0000-000000000101` (the constant lives in
`gel-protocol/src/codec.rs`, not among the sources under review). -/
def STD_STR : Uuid := ⟨[0, 0, 0, 0, 0, 0, 0, 0, 0, 0, 0, 0, 0, 0, 0x01, 0x01]⟩

/-- The `<&str as ScalarArg>::check_descriptor` (`raw_scalar.rs` lines 85-92):
an `Enumeration` descriptor is accepted outright (a `&str` can express an
enum variant); otherwise fall through to `check_scalar` with the `std::str`
UUID. -/
def str_check_descriptor (ctx : DescriptorContext) (fuel : Nat) (pos : TypePos) :
    Except CheckError Unit :=
  match ctx.get pos with
  | .error e => .error e
  | .ok (.enumeration _) => .ok ()
  | .ok _ => check_scalar ctx fuel pos STD_STR

/-- The `<EnumValue as ScalarArg>::check_descriptor` (`raw_scalar.rs` lines
665-675), translated exactly: the source resolves the descriptor, has an
`if let Enumeration(_)` branch whose body consists only of comments, and
then unconditionally returns `Err(ctx.wrong_type(desc, "enum"))` — so every
resolvable position fails with a descriptor mismatch. -/
def enum_value_check_descriptor (ctx : DescriptorContext) (pos : TypePos) :
    Except CheckError Unit :=
  match ctx.get pos with
  | .error e => .error e
  | .ok _ => .error .descriptorMismatch

/-- The `check_descriptor` generated by `derive_enum`
(`gel-derive/src/enums.rs` lines 46-63): accepts any `Enumeration`
descriptor without inspecting its member list, rejects everything else. -/
def derived_enum_check_descriptor (ctx : DescriptorContext) (pos : TypePos) :
    Except CheckError Unit :=
  match ctx.get pos with
  | .error e => .error e
  | .ok (.enumeration _) => .ok ()
  | .ok _ => .error .descriptorMismatch

/-- Claim C3: Evaluation at the failing input: in a descriptor context whose
position 0 holds an `Enumeration` descriptor, the string binding's check
succeeds (without validating members) and the derive-generated enum check
succeeds, but `<EnumValue as ScalarArg>::check_descriptor` fails with a
descriptor mismatch — the claim says the enum-value binding must also be
accepted, and the code's own comment-only `Enumeration` branch (plus the
derive macro's accepting counterpart) shows the `return Ok(())` is missing. -/
theorem c3_enum_descriptor_code_eval :
    str_check_descriptor ⟨[.enumeration [[65]]], true⟩ 1 0 = .ok () ∧
      derived_enum_check_descriptor ⟨[.enumeration [[65]]], true⟩ 0 = .ok () ∧
      enum_value_check_descriptor ⟨[.enumeration [[65]]], true⟩ 0 =
        .error .descriptorMismatch :=
  ⟨rfl, rfl, rfl⟩

/-! ## `Config::to_tls` (`gel-dsn/src/gel/config.rs` lines 415-467)

Host strings are modelled as `List Char`.  `self.host.target_name()` and
`IpAddr::from_str` are external to the sources under review (`gel-dsn`'s
`host.rs` and the standard library): their combined outcome is modelled by
`TargetHost` — either the host string parses as an IP literal (carrying the
canonical `Display` form that `format!("{ip}...")` would print), or it is a
host name, or the target has no host (Unix path). -/

/-- The `TlsSecurity` (`config.rs` lines 656-676). -/
inductive TlsSecurity where
  | insecure
  | noHostVerification
  | strict
  | default
  deriving DecidableEq, Repr

/-- The `gel_stream::TlsServerCertVerify`. -/
inductive TlsServerCertVerify where
  | insecure
  | ignoreHostname
  | verifyFull
  deriving DecidableEq, Repr

/-- The `gel_stream::TlsCert` (root-certificate source). -/
inductive TlsCert where
  | webpki
  | webpkiPlus (certs : List (List Nat))
  | custom (certs : List (List Nat))
  deriving DecidableEq, Repr

/-- The outcome of `self.host.target_name()` followed by `.host()` and
`IpAddr::from_str(&host)` in `to_tls`. -/
inductive TargetHost where
  | ipAddr (display : List Char)
  | hostname (name : List Char)
  | noHost
  deriving DecidableEq, Repr

/-- The fields of `Config` that `to_tls` reads.  `cloud_certs` carries the
already-parsed certificate bundle of `CloudCerts::certificates()` (the PEM
data is compile-time external input). -/
structure ConfigTls where
  tls_security : TlsSecurity
  tls_ca : Option (List (List Nat))
  tls_server_name : Option (List Char)
  host : TargetHost
  cloud_certs : Option (List (List Nat))
  deriving DecidableEq, Repr

/-- The fields of `gel_stream::TlsParameters` that `to_tls` sets. -/
structure TlsParametersModel where
  root_cert : TlsCert
  server_cert_verify : TlsServerCertVerify
  alpn : List (List Char)
  sni_override : Option (List Char)
  deriving DecidableEq, Repr

/-- The `host.replace([':', '%'], "-")`, character by character. -/
def substColonPercent (c : Char) : Char :=
  if c = ':' ∨ c = '%' then '-' else c

/-- The `Config::to_tls` (lines 416-466), translated field by field.  Note the
`server_cert_verify` match collapses `Strict | Default` into one
`VerifyFull` arm exactly as the source does (lines 433-437). -/
def to_tls (cfg : ConfigTls) : TlsParametersModel :=
  { root_cert :=
      match cfg.tls_ca with
      | some certs => .custom certs
      | none =>
        match cfg.cloud_certs with
        | some cloud_certs => .webpkiPlus cloud_certs
        | none => .webpki
    server_cert_verify :=
      match cfg.tls_security with
      | .insecure => .insecure
      | .noHostVerification => .ignoreHostname
      | .strict | .default => .verifyFull
    alpn := ["edgedb-binary".toList, "gel-binary".toList]
    sni_override :=
      match cfg.tls_server_name with
      | some server_name => some server_name
      | none =>
        match cfg.host with
        | .ipAddr ip =>
          let host := ip ++ ".host-for-ip.edgedb.net".toList
          let host := host.map substColonPercent
          match host with
          | '-' :: _ => some ('i' :: host)
          | _ => some host
        | .hostname h => some h
        | .noHost => none }

/-- Claim C4: Evaluation at the failing input: with `tls_security = Default`
and a pinned certificate present (`tls_ca = Some(..)`), `to_tls` yields
`VerifyFull`, not the `IgnoreHostname` that the claim (and the doc comment
on `TlsSecurity::Default`, `config.rs` lines 672-675) prescribes; the four
mode mappings of the claim hold everywhere except this pinned-certificate
case. -/
theorem c4_default_verify_code_eval :
    (to_tls ⟨.default, some [[0]], none, .hostname "localhost".toList, none⟩).server_cert_verify
        = .verifyFull ∧
      (to_tls ⟨.insecure, some [[0]], none, .hostname "localhost".toList, none⟩).server_cert_verify
        = .insecure ∧
      (to_tls ⟨.noHostVerification, some [[0]], none,
        .hostname "localhost".toList, none⟩).server_cert_verify = .ignoreHostname ∧
      (to_tls ⟨.strict, some [[0]], none, .hostname "localhost".toList, none⟩).server_cert_verify
        = .verifyFull ∧
      TlsServerCertVerify.verifyFull ≠ TlsServerCertVerify.ignoreHostname :=
  ⟨rfl, rfl, rfl, rfl, by decide⟩

/-- The SNI string the spec prescribes for an IP-literal host, written from
the spec's words: every `':'` and `'%'` of the IP is replaced by `'-'`, the
result is suffixed with `.host-for-ip.<vendor domain>`, and a resulting
leading `'-'` is prefixed with `'i'`. -/
def sniForIpSpec (ip : List Char) : List Char :=
  let ipr := ip.map substColonPercent
  let host := ipr ++ ".host-for-ip.edgedb.net".toList
  match host with
  | '-' :: _ => 'i' :: host
  | _ => host

theorem map_subst_domain :
    ".host-for-ip.edgedb.net".toList.map substColonPercent =
      ".host-for-ip.edgedb.net".toList := by decide

/-- Claim C5: For every TLS configuration whose target host is an IP literal
and which has no `tls_server_name` override, the SNI produced by `to_tls`
is exactly the spec's `<ip>.host-for-ip.<vendor-domain>` rewriting; and
whenever an explicit override is set, it is used verbatim, for every host. -/
theorem c5_sni_for_ip (cfg : ConfigTls) :
    (cfg.tls_server_name = none → ∀ ip, cfg.host = .ipAddr ip →
        (to_tls cfg).sni_override = some (sniForIpSpec ip)) ∧
      (∀ s, cfg.tls_server_name = some s → (to_tls cfg).sni_override = some s) := by
  constructor
  · intro hnone ip hip
    simp only [to_tls, hnone, hip]
    have hmap : (ip ++ ".host-for-ip.edgedb.net".toList).map substColonPercent =
        ip.map substColonPercent ++ ".host-for-ip.edgedb.net".toList := by
      rw [List.map_append, map_subst_domain]
    simp only [hmap, sniForIpSpec]
    generalize (List.map substColonPercent ip ++ ".host-for-ip.edgedb.net".toList) = L
    split <;> rfl
  · intro s hs
    simp only [to_tls, hs]

/-- Witness for C5: the concrete IPv4 host `127.0.0.1` without override gets
SNI `127.0.0.1.host-for-ip.edgedb.net`, and an explicit override wins. -/
theorem c5_sni_for_ip_witness :
    (to_tls ⟨.strict, none, none, .ipAddr "127.0.0.1".toList, none⟩).sni_override =
        some (sniForIpSpec "127.0.0.1".toList) ∧
      (to_tls ⟨.strict, none, some "sni.example.com".toList,
        .ipAddr "127.0.0.1".toList, none⟩).sni_override =
        some "sni.example.com".toList :=
  ⟨(c5_sni_for_ip _).1 rfl _ rfl, (c5_sni_for_ip _).2 _ rfl⟩

/-! ## Connection targets (`gel-stream/src/common/target.rs`) -/

/-- The `std::os::unix::net::SocketAddr`: a Unix socket address is bound to a
filesystem path, to an abstract name (Linux/Android), or unnamed;
`as_pathname()` returns `Some` only in the first case. -/
inductive UnixAddr where
  | pathname (path : List Char)
  | abstractName (name : List Nat)
  | unnamed
  deriving DecidableEq, Repr

/-- The `ResolvedTarget` (`target.rs` lines 505-512).  A `SocketAddr` is kept as
its display host and port. -/
inductive ResolvedTarget where
  | socketAddr (ip : List Char) (port : Nat)
  | unixSocketAddr (addr : UnixAddr)
  deriving DecidableEq, Repr

/-- The `MaybeResolvedTarget` (`target.rs` lines 378-382). -/
inductive MaybeResolvedTarget where
  | resolved (target : ResolvedTarget)
  | unresolved (host : List Char) (port : Nat) (interface : Option (List Char))
  deriving DecidableEq, Repr

/-- The `MaybeResolvedTarget::path` (`target.rs` lines 449-457): `Some` only for
a pathname-bound Unix socket address. -/
def MaybeResolvedTarget.path : MaybeResolvedTarget → Option (List Char)
  | .resolved (.unixSocketAddr (.pathname p)) => some p
  | _ => none

/-- The `TlsParameters` of `gel-stream` is opaque to `try_set_tls`; an
identifying token suffices for the model. -/
structure TlsParams where
  token : Nat
  deriving DecidableEq, Repr

/-- The `TargetInner` (`target.rs` lines 499-503). -/
inductive TargetInner where
  | noTls (target : MaybeResolvedTarget)
  | tls (target : MaybeResolvedTarget) (params : TlsParams)
  | startTls (target : MaybeResolvedTarget) (params : TlsParams)
  deriving DecidableEq, Repr

/-- The `Target::maybe_resolved` (`target.rs` lines 349-355). -/
def TargetInner.maybe_resolved : TargetInner → MaybeResolvedTarget
  | .noTls target => target
  | .tls target _ => target
  | .startTls target _ => target

/-- The `Target::try_set_tls` (`target.rs` lines 254-281), as a pure function
returning the updated target and the Rust return value
(`Option<Option<Arc<TlsParameters>>>`): `none` when the parameters were not
applied, otherwise `some` of the previous parameters (if any). -/
def try_set_tls (target : TargetInner) (params : TlsParams) :
    TargetInner × Option (Option TlsParams) :=
  if (target.maybe_resolved.path).isSome then (target, none)
  else
    match target with
    | .noTls t => (.tls t params, some none)
    | .tls t old_params => (.tls t params, some (some old_params))
    | .startTls t old_params => (.startTls t params, some (some old_params))

/-- Whether the target's endpoint is a Unix socket of any kind. -/
def TargetInner.isUnixEndpoint (target : TargetInner) : Bool :=
  match target.maybe_resolved with
  | .resolved (.unixSocketAddr _) => true
  | _ => false

/-- Claim C6, counterexample: A target whose endpoint is an abstract-name
Unix socket (a Unix socket, so the claim requires "not applied" = `none`)
actually gets the TLS parameters attached: `try_set_tls` returns
`some none`, because the guard only consults `path()`, which is `none` for
abstract socket addresses. -/
theorem c6_unix_any_kind_counterexample :
    TargetInner.isUnixEndpoint
        (.noTls (.resolved (.unixSocketAddr (.abstractName [116])))) = true ∧
      (try_set_tls (.noTls (.resolved (.unixSocketAddr (.abstractName [116])))) ⟨0⟩).2
        = some none ∧
      (some (none : Option TlsParams)) ≠ none :=
  ⟨rfl, rfl, by decide⟩

/-- Claim C6, amended: For every target whose endpoint is a *path-bound* Unix
socket, `try_set_tls` returns "not applied" (`none`) and leaves the target
unchanged; abstract-name and unnamed Unix socket endpoints are not rejected
by this guard. -/
theorem c6_path_unix_not_applied (target : TargetInner) (params : TlsParams)
    (p : List Char)
    (h : target.maybe_resolved = .resolved (.unixSocketAddr (.pathname p))) :
    try_set_tls target params = (target, none) := by
  have hp : (target.maybe_resolved.path).isSome = true := by
    rw [h]
    rfl
  unfold try_set_tls
  rw [hp]
  simp

/-- Witness for the amended C6 at a concrete pathname-bound Unix target. -/
theorem c6_path_unix_not_applied_witness :
    try_set_tls (.noTls (.resolved (.unixSocketAddr (.pathname "/tmp/test.sock".toList))))
        ⟨7⟩ =
      (.noTls (.resolved (.unixSocketAddr (.pathname "/tmp/test.sock".toList))), none) :=
  c6_path_unix_not_applied _ _ "/tmp/test.sock".toList rfl

/-! ## C7: reserved fields of duration payloads -/

/-- Claim C7: For every 16-byte duration payload: decoding fails with
`NonZeroReservedBytes` exactly when the day field (bytes 8-11) or the month
field (bytes 12-15) is nonzero, and succeeds with the micros field
otherwise; for every 16-byte date-duration payload: decoding fails with
`NonZeroReservedBytes` exactly when the micros field (bytes 0-7) is
nonzero, and succeeds with the days/months fields otherwise. -/
theorem c7_duration_reserved_fields (buf : List Nat) (h : buf.length = 16) :
    (durationDecode buf =
      if beNat ((buf.drop 8).take 4) ≠ 0 ∨ beNat ((buf.drop 12).take 4) ≠ 0 then
        .error .nonZeroReservedBytes
      else .ok ⟨toSigned 64 (beNat (buf.take 8))⟩) ∧
    (dateDurationDecode buf =
      if toSigned 64 (beNat (buf.take 8)) ≠ 0 then .error .nonZeroReservedBytes
      else .ok ⟨toSigned 32 (beNat ((buf.drop 8).take 4)),
        toSigned 32 (beNat ((buf.drop 12).take 4))⟩) := by
  have h8 : getBE 8 buf = .ok (beNat (buf.take 8), buf.drop 8) := getBE_ok (by omega)
  have h4a : getBE 4 (buf.drop 8) =
      .ok (beNat ((buf.drop 8).take 4), (buf.drop 8).drop 4) :=
    getBE_ok (by simp [h])
  have hdd : (buf.drop 8).drop 4 = buf.drop 12 := by
    rw [List.drop_drop]
  have h4b : getBE 4 (buf.drop 12) =
      .ok (beNat ((buf.drop 12).take 4), (buf.drop 12).drop 4) :=
    getBE_ok (by simp [h])
  constructor
  · simp only [durationDecode, ensure_exact_size_ok h, h8, h4a, hdd, h4b]
    by_cases hd : beNat ((buf.drop 8).take 4) = 0 <;>
      by_cases hm : beNat ((buf.drop 12).take 4) = 0 <;>
        simp [hd, hm]
  · simp only [dateDurationDecode, ensure_exact_size_ok h, h8, h4a, hdd, h4b]
    by_cases hm : toSigned 64 (beNat (buf.take 8)) = 0 <;> simp [hm]

/-- Witness for C7 at the all-zero 16-byte payload: both reserved-field
checks pass and both decoders return the zero value. -/
theorem c7_duration_reserved_fields_witness :
    (List.replicate 16 0).length = 16 ∧
      ((durationDecode (List.replicate 16 0) =
        if beNat (((List.replicate 16 0).drop 8).take 4) ≠ 0 ∨
            beNat (((List.replicate 16 0).drop 12).take 4) ≠ 0 then
          .error .nonZeroReservedBytes
        else .ok ⟨toSigned 64 (beNat ((List.replicate 16 0).take 8))⟩) ∧
      (dateDurationDecode (List.replicate 16 0) =
        if toSigned 64 (beNat ((List.replicate 16 0).take 8)) ≠ 0 then
          .error .nonZeroReservedBytes
        else .ok ⟨toSigned 32 (beNat (((List.replicate 16 0).drop 8).take 4)),
          toSigned 32 (beNat (((List.replicate 16 0).drop 12).take 4))⟩)) :=
  ⟨by decide, c7_duration_reserved_fields (List.replicate 16 0) (by decide)⟩

/-! ## C8: cardinality (`gel-db-protocol/src/protocol.rs` lines 641-664) -/

/-- The `Cardinality` (`protocol.rs` lines 644-651). -/
inductive Cardinality where
  | noResult
  | atMostOne
  | one
  | many
  | atLeastOne
  deriving DecidableEq, Repr

/-- The `repr(u8)` wire discriminants of `Cardinality`. -/
def Cardinality.wireValue : Cardinality → Nat
  | .noResult => 0x6e
  | .atMostOne => 0x6f
  | .one => 0x41
  | .many => 0x6d
  | .atLeastOne => 0x4d

/-- The `Cardinality::is_optional` (`protocol.rs` lines 653-664), arm by arm. -/
def Cardinality.is_optional : Cardinality → Bool
  | .noResult => true
  | .atMostOne => true
  | .one => false
  | .many => true
  | .atLeastOne => false

/-- Claim C8: The cardinality enumeration has wire values `NoResult = 0x6e`,
`AtMostOne = 0x6f`, `One = 0x41`, `Many = 0x6d`, `AtLeastOne = 0x4d`, and a
cardinality is optional exactly when it is `NoResult`, `AtMostOne`, or
`Many`. -/
theorem c8_cardinality :
    Cardinality.wireValue .noResult = 0x6e ∧
      Cardinality.wireValue .atMostOne = 0x6f ∧
      Cardinality.wireValue .one = 0x41 ∧
      Cardinality.wireValue .many = 0x6d ∧
      Cardinality.wireValue .atLeastOne = 0x4d ∧
      ∀ c : Cardinality, c.is_optional = true ↔
        (c = .noResult ∨ c = .atMostOne ∨ c = .many) := by
  refine ⟨rfl, rfl, rfl, rfl, rfl, ?_⟩
  intro c
  cases c <;> simp [Cardinality.is_optional]

/-! ## C10: the database/branch selector (`config.rs` lines 494-564) -/

/-- The `DEFAULT_DATABASE_NAME` (`config.rs` line 31). -/
def DEFAULT_DATABASE_NAME : String := "edgedb"

/-- The `DEFAULT_BRANCH_NAME_CONNECT` (`config.rs` line 35). -/
def DEFAULT_BRANCH_NAME_CONNECT : String := "__default__"

/-- The `DEFAULT_BRANCH_NAME_CREATE` (`config.rs` line 37). -/
def DEFAULT_BRANCH_NAME_CREATE : String := "main"

/-- The `DatabaseBranch` (`config.rs` lines 495-502). -/
inductive DatabaseBranch where
  | Default
  | Database (name : String)
  | Branch (name : String)
  | Ambiguous (name : String)
  deriving DecidableEq, Repr

/-- The `DatabaseBranch::database` (`config.rs` lines 526-534).  The `Branch`
arm is the source's commented special case: it returns the branch name. -/
def DatabaseBranch.database : DatabaseBranch → Option String
  | .Database database => some database
  | .Branch branch => some branch
  | .Ambiguous ambiguous => some ambiguous
  | .Default => some DEFAULT_DATABASE_NAME

/-- The `DatabaseBranch::branch_for_connect` (`config.rs` lines 536-544).  The
`Database` arm is the source's commented special case. -/
def DatabaseBranch.branch_for_connect : DatabaseBranch → Option String
  | .Branch branch => some branch
  | .Database database => some database
  | .Ambiguous ambiguous => some ambiguous
  | .Default => some DEFAULT_BRANCH_NAME_CONNECT

/-- The `DatabaseBranch::branch_for_create` (`config.rs` lines 546-554). -/
def DatabaseBranch.branch_for_create : DatabaseBranch → Option String
  | .Branch branch => some branch
  | .Database database => some database
  | .Ambiguous ambiguous => some ambiguous
  | .Default => some DEFAULT_BRANCH_NAME_CREATE

/-- The `DatabaseBranch::name` (`config.rs` lines 556-563). -/
def DatabaseBranch.name : DatabaseBranch → Option String
  | .Database database => some database
  | .Branch branch => some branch
  | .Ambiguous ambiguous => some ambiguous
  | .Default => none

/-- Claim C10: Both `database()` and `branch_for_connect()` always return
`Some`: each named variant yields its name from both accessors, and
`Default` yields `"edgedb"` from `database()` and `"__default__"` from
`branch_for_connect()`. -/
theorem c10_database_branch_total :
    (∀ n : String,
      (DatabaseBranch.Database n).database = some n ∧
      (DatabaseBranch.Database n).branch_for_connect = some n ∧
      (DatabaseBranch.Branch n).database = some n ∧
      (DatabaseBranch.Branch n).branch_for_connect = some n ∧
      (DatabaseBranch.Ambiguous n).database = some n ∧
      (DatabaseBranch.Ambiguous n).branch_for_connect = some n) ∧
    DatabaseBranch.Default.database = some "edgedb" ∧
    DatabaseBranch.Default.branch_for_connect = some "__default__" ∧
    ∀ db : DatabaseBranch, db.database.isSome ∧ db.branch_for_connect.isSome := by
  refine ⟨fun n => ⟨rfl, rfl, rfl, rfl, rfl, rfl⟩, rfl, rfl, fun db => ?_⟩
  cases db <;> simp [DatabaseBranch.database, DatabaseBranch.branch_for_connect]

/-! ## C9: no decoder reaches an out-of-bounds read

The only `outOfBounds` sources in the model are `getBE` (a `bytes`-crate
panic) and the `unwrap` of `Uuid::from_slice`; the lemmas below show that
every decoder's preceding size check makes them unreachable, so decoding is
total over arbitrary input. -/

theorem ensure_exact_size_cases (buf : List Nat) (n : Nat) :
    ensure_exact_size buf n = .ok () ∨
      ensure_exact_size buf n = .error .underflow ∨
      ensure_exact_size buf n = .error .extraData := by
  unfold ensure_exact_size
  split
  · split
    · right; left; rfl
    · right; right; rfl
  · left; rfl

theorem ensure_ok_iff (buf : List Nat) (n : Nat) :
    ensure_exact_size buf n = .ok () ↔ buf.length = n := by
  unfold ensure_exact_size
  split
  · rename_i hne
    split <;> simp [hne]
  · rename_i hne
    simp at hne
    simp [hne]

theorem readDigits_ok (n : Nat) (buf : List Nat) (h : 2 * n ≤ buf.length) :
    ∃ ds rest, readDigits n buf = .ok (ds, rest) := by
  induction n generalizing buf with
  | zero => exact ⟨[], buf, rfl⟩
  | succ n ih =>
    have h2 : 2 ≤ buf.length := by omega
    have hlen : 2 * n ≤ (buf.drop 2).length := by simp; omega
    obtain ⟨ds, rest, hr⟩ := ih (buf.drop 2) hlen
    refine ⟨beNat (buf.take 2) :: ds, rest, ?_⟩
    simp only [readDigits, getBE_ok h2, hr]

theorem strDecode_ne_oob (buf : List Nat) : strDecode buf ≠ .error .outOfBounds := by
  by_cases h : validUtf8 buf = true <;> simp [strDecode, h]

theorem jsonDecode_ne_oob (buf : List Nat) : jsonDecode buf ≠ .error .outOfBounds := by
  cases buf with
  | nil => simp [jsonDecode]
  | cons format rest =>
    simp only [jsonDecode]
    split_ifs <;> simp

theorem bytesDecode_ne_oob (buf : List Nat) : bytesDecode buf ≠ .error .outOfBounds := by
  simp [bytesDecode]

theorem uuidDecode_ne_oob (buf : List Nat) : uuidDecode buf ≠ .error .outOfBounds := by
  rcases ensure_exact_size_cases buf 16 with h | h | h
  · have hl := (ensure_ok_iff buf 16).mp h
    simp [uuidDecode, h, uuidFromSlice, hl]
  · simp [uuidDecode, h]
  · simp [uuidDecode, h]

theorem boolDecode_ne_oob (buf : List Nat) : boolDecode buf ≠ .error .outOfBounds := by
  rcases ensure_exact_size_cases buf 1 with h | h | h
  · have hl := (ensure_ok_iff buf 1).mp h
    cases buf with
    | nil => simp at hl
    | cons v rest =>
      simp only [boolDecode, h]
      split_ifs <;> simp
  · simp [boolDecode, h]
  · simp [boolDecode, h]

theorem i16Decode_ne_oob (buf : List Nat) : i16Decode buf ≠ .error .outOfBounds := by
  rcases ensure_exact_size_cases buf 2 with h | h | h
  · have hl := (ensure_ok_iff buf 2).mp h
    simp [i16Decode, h, getBE_ok (show 2 ≤ buf.length by omega)]
  · simp [i16Decode, h]
  · simp [i16Decode, h]

theorem i32Decode_ne_oob (buf : List Nat) : i32Decode buf ≠ .error .outOfBounds := by
  rcases ensure_exact_size_cases buf 4 with h | h | h
  · have hl := (ensure_ok_iff buf 4).mp h
    simp [i32Decode, h, getBE_ok (show 4 ≤ buf.length by omega)]
  · simp [i32Decode, h]
  · simp [i32Decode, h]

theorem i64Decode_ne_oob (buf : List Nat) : i64Decode buf ≠ .error .outOfBounds := by
  rcases ensure_exact_size_cases buf 8 with h | h | h
  · have hl := (ensure_ok_iff buf 8).mp h
    simp [i64Decode, h, getBE_ok (show 8 ≤ buf.length by omega)]
  · simp [i64Decode, h]
  · simp [i64Decode, h]

theorem configMemoryDecode_ne_oob (buf : List Nat) :
    configMemoryDecode buf ≠ .error .outOfBounds := by
  rcases ensure_exact_size_cases buf 8 with h | h | h
  · have hl := (ensure_ok_iff buf 8).mp h
    simp [configMemoryDecode, h, getBE_ok (show 8 ≤ buf.length by omega)]
  · simp [configMemoryDecode, h]
  · simp [configMemoryDecode, h]

theorem f32Decode_ne_oob (buf : List Nat) : f32Decode buf ≠ .error .outOfBounds := by
  rcases ensure_exact_size_cases buf 4 with h | h | h
  · have hl := (ensure_ok_iff buf 4).mp h
    simp [f32Decode, h, getBE_ok (show 4 ≤ buf.length by omega)]
  · simp [f32Decode, h]
  · simp [f32Decode, h]

theorem f64Decode_ne_oob (buf : List Nat) : f64Decode buf ≠ .error .outOfBounds := by
  rcases ensure_exact_size_cases buf 8 with h | h | h
  · have hl := (ensure_ok_iff buf 8).mp h
    simp [f64Decode, h, getBE_ok (show 8 ≤ buf.length by omega)]
  · simp [f64Decode, h]
  · simp [f64Decode, h]

theorem durationDecode_ne_oob (buf : List Nat) :
    durationDecode buf ≠ .error .outOfBounds := by
  rcases ensure_exact_size_cases buf 16 with h | h | h
  · have hl := (ensure_ok_iff buf 16).mp h
    have h8 : getBE 8 buf = .ok (beNat (buf.take 8), buf.drop 8) :=
      getBE_ok (by omega)
    have h4a := getBE_ok (show 4 ≤ (buf.drop 8).length by simp [hl])
    have h4b := getBE_ok (show 4 ≤ ((buf.drop 8).drop 4).length by simp [hl])
    simp only [durationDecode, h, h8, h4a, h4b]
    split <;> simp
  · simp [durationDecode, h]
  · simp [durationDecode, h]

theorem relativeDurationDecode_ne_oob (buf : List Nat) :
    relativeDurationDecode buf ≠ .error .outOfBounds := by
  rcases ensure_exact_size_cases buf 16 with h | h | h
  · have hl := (ensure_ok_iff buf 16).mp h
    have h8 : getBE 8 buf = .ok (beNat (buf.take 8), buf.drop 8) :=
      getBE_ok (by omega)
    have h4a := getBE_ok (show 4 ≤ (buf.drop 8).length by simp [hl])
    have h4b := getBE_ok (show 4 ≤ ((buf.drop 8).drop 4).length by simp [hl])
    simp only [relativeDurationDecode, h, h8, h4a, h4b]
    simp
  · simp [relativeDurationDecode, h]
  · simp [relativeDurationDecode, h]

theorem dateDurationDecode_ne_oob (buf : List Nat) :
    dateDurationDecode buf ≠ .error .outOfBounds := by
  rcases ensure_exact_size_cases buf 16 with h | h | h
  · have hl := (ensure_ok_iff buf 16).mp h
    have h8 : getBE 8 buf = .ok (beNat (buf.take 8), buf.drop 8) :=
      getBE_ok (by omega)
    have h4a := getBE_ok (show 4 ≤ (buf.drop 8).length by simp [hl])
    have h4b := getBE_ok (show 4 ≤ ((buf.drop 8).drop 4).length by simp [hl])
    simp only [dateDurationDecode, h, h8, h4a, h4b]
    split <;> simp
  · simp [dateDurationDecode, h]
  · simp [dateDurationDecode, h]

theorem datetimeDecode_ne_oob (buf : List Nat) :
    datetimeDecode buf ≠ .error .outOfBounds := by
  have h := i64Decode_ne_oob buf
  cases hi : i64Decode buf with
  | error e =>
    rw [hi] at h
    simp only [datetimeDecode, hi]
    simpa using h
  | ok v => simp [datetimeDecode, hi]

theorem localDatetimeDecode_ne_oob (buf : List Nat) :
    localDatetimeDecode buf ≠ .error .outOfBounds := by
  have h := i64Decode_ne_oob buf
  cases hi : i64Decode buf with
  | error e =>
    rw [hi] at h
    simp only [localDatetimeDecode, hi]
    simpa using h
  | ok v => simp [localDatetimeDecode, hi]

theorem localDateDecode_ne_oob (buf : List Nat) :
    localDateDecode buf ≠ .error .outOfBounds := by
  have h := i32Decode_ne_oob buf
  cases hi : i32Decode buf with
  | error e =>
    rw [hi] at h
    simp only [localDateDecode, hi]
    simpa using h
  | ok v => simp [localDateDecode, hi]

theorem localTimeDecode_ne_oob (buf : List Nat) :
    localTimeDecode buf ≠ .error .outOfBounds := by
  have h := i64Decode_ne_oob buf
  cases hi : i64Decode buf with
  | error e =>
    rw [hi] at h
    simp only [localTimeDecode, hi]
    simpa using h
  | ok v =>
    simp only [localTimeDecode, hi]
    split <;> simp

theorem decimalDecode_ne_oob (buf : List Nat) :
    decimalDecode buf ≠ .error .outOfBounds := by
  by_cases h8 : buf.length < 8
  · simp [decimalDecode, h8]
  · have g1 : getBE 2 buf = .ok (beNat (buf.take 2), buf.drop 2) :=
      getBE_ok (by omega)
    have g2 := getBE_ok (show 2 ≤ (buf.drop 2).length by simp; omega)
    have g3 := getBE_ok (show 2 ≤ ((buf.drop 2).drop 2).length by simp; omega)
    have g4 := getBE_ok (show 2 ≤ (((buf.drop 2).drop 2).drop 2).length by simp; omega)
    simp only [decimalDecode, h8, if_false, g1, g2, g3, g4]
    split_ifs
    · rcases ensure_exact_size_cases ((((buf.drop 2).drop 2).drop 2).drop 2)
          (beNat (buf.take 2) * 2) with he | he | he
      · have hdl := (ensure_ok_iff _ _).mp he
        obtain ⟨ds, rest2, hr⟩ := readDigits_ok (beNat (buf.take 2))
          ((((buf.drop 2).drop 2).drop 2).drop 2) (by omega)
        simp only [he, hr]
        simp
      · simp only [he]; simp
      · simp only [he]; simp
    · rcases ensure_exact_size_cases ((((buf.drop 2).drop 2).drop 2).drop 2)
          (beNat (buf.take 2) * 2) with he | he | he
      · have hdl := (ensure_ok_iff _ _).mp he
        obtain ⟨ds, rest2, hr⟩ := readDigits_ok (beNat (buf.take 2))
          ((((buf.drop 2).drop 2).drop 2).drop 2) (by omega)
        simp only [he, hr]
        simp
      · simp only [he]; simp
      · simp only [he]; simp
    · simp

theorem bigIntDecode_ne_oob (buf : List Nat) :
    bigIntDecode buf ≠ .error .outOfBounds := by
  by_cases h8 : buf.length < 8
  · simp [bigIntDecode, h8]
  · have g1 : getBE 2 buf = .ok (beNat (buf.take 2), buf.drop 2) :=
      getBE_ok (by omega)
    have g2 := getBE_ok (show 2 ≤ (buf.drop 2).length by simp; omega)
    have g3 := getBE_ok (show 2 ≤ ((buf.drop 2).drop 2).length by simp; omega)
    have g4 := getBE_ok (show 2 ≤ (((buf.drop 2).drop 2).drop 2).length by simp; omega)
    simp only [bigIntDecode, h8, if_false, g1, g2, g3, g4]
    split_ifs <;>
      first
      | (simp; done)
      | (rcases ensure_exact_size_cases ((((buf.drop 2).drop 2).drop 2).drop 2)
            (beNat (buf.take 2) * 2) with he | he | he <;>
          [(obtain ⟨ds, rest2, hr⟩ := readDigits_ok (beNat (buf.take 2))
              ((((buf.drop 2).drop 2).drop 2).drop 2)
              (by have hdl := (ensure_ok_iff _ _).mp he; omega);
            simp only [he, hr]; simp);
           (simp only [he]; simp);
           (simp only [he]; simp)])

/-- Claim C9: Every `RawCodec` scalar decoder is total over arbitrary input:
it returns `Ok` or a proper `DecodeError` and never reaches an
out-of-bounds read or panicking `unwrap` (modelled by the `outOfBounds`
error); in particular the `unwrap` inside `Uuid::decode` and the
digit-reading loops of `Decimal`/`BigInt` decoding are unreachable error
branches, because a preceding exact-size check establishes the required
buffer length. -/
theorem c9_decoders_never_out_of_bounds (buf : List Nat) :
    strDecode buf ≠ .error .outOfBounds ∧
    jsonDecode buf ≠ .error .outOfBounds ∧
    bytesDecode buf ≠ .error .outOfBounds ∧
    uuidDecode buf ≠ .error .outOfBounds ∧
    boolDecode buf ≠ .error .outOfBounds ∧
    i16Decode buf ≠ .error .outOfBounds ∧
    i32Decode buf ≠ .error .outOfBounds ∧
    i64Decode buf ≠ .error .outOfBounds ∧
    configMemoryDecode buf ≠ .error .outOfBounds ∧
    f32Decode buf ≠ .error .outOfBounds ∧
    f64Decode buf ≠ .error .outOfBounds ∧
    decimalDecode buf ≠ .error .outOfBounds ∧
    bigIntDecode buf ≠ .error .outOfBounds ∧
    durationDecode buf ≠ .error .outOfBounds ∧
    relativeDurationDecode buf ≠ .error .outOfBounds ∧
    dateDurationDecode buf ≠ .error .outOfBounds ∧
    localDateDecode buf ≠ .error .outOfBounds ∧
    localTimeDecode buf ≠ .error .outOfBounds ∧
    datetimeDecode buf ≠ .error .outOfBounds ∧
    localDatetimeDecode buf ≠ .error .outOfBounds :=
  ⟨strDecode_ne_oob buf, jsonDecode_ne_oob buf, bytesDecode_ne_oob buf,
    uuidDecode_ne_oob buf, boolDecode_ne_oob buf, i16Decode_ne_oob buf,
    i32Decode_ne_oob buf, i64Decode_ne_oob buf, configMemoryDecode_ne_oob buf,
    f32Decode_ne_oob buf, f64Decode_ne_oob buf, decimalDecode_ne_oob buf,
    bigIntDecode_ne_oob buf, durationDecode_ne_oob buf,
    relativeDurationDecode_ne_oob buf, dateDurationDecode_ne_oob buf,
    localDateDecode_ne_oob buf, localTimeDecode_ne_oob buf,
    datetimeDecode_ne_oob buf, localDatetimeDecode_ne_oob buf⟩

end GelModel
